import Mathlib

/-!
Verification of the `strands-deepsearch-agent` backend against its design
specification.  The Python sources under `backend/src/agent/` are shallowly
embedded: Python `str` values are Lean `String`s (or `List Char` where
character-level processing matters), Python functions that may raise are
modelled with `Except String`, external collaborators (model-backed agents,
HTTP backends) are parameters of the embedding, and the orchestrator's
asynchronous generator is modelled as the finite list of events it yields.
-/

/-- Python text, viewed as its sequence of Unicode scalar values. -/
abbrev PyStr := List Char

/-!
## `str.lower`

`research_tools.ResearchTools.needs_additional_research` calls
`analysis_text.lower()`.  We model Python's `str.lower` character-wise on the
code points that can occur in the fixed phrase vocabulary: ASCII `A`–`Z`,
the Latin-1 uppercase range `À`–`Þ` (excluding `×`), and `Ÿ` (U+0178, which
lowers to `ÿ` U+00FF).  Python lowers further scripts too, but every phrase
of the vocabulary lies in this fragment, and on it the model is exact.
-/
def pyLower (c : Char) : Char :=
  if 'A' ≤ c ∧ c ≤ 'Z' then Char.ofNat (c.toNat + 32)
  else if 0xC0 ≤ c.toNat ∧ c.toNat ≤ 0xDE ∧ c.toNat ≠ 0xD7 then Char.ofNat (c.toNat + 32)
  else if c.toNat = 0x178 then Char.ofNat 0xFF
  else c

/-- `str.lower` over a whole string. -/
def pyLowerStr (s : String) : PyStr := s.data.map pyLower

/-!
## `ResearchTools.needs_additional_research`  (research_tools.py, lines 14–37)

The phrase table is copied byte-for-byte from the source file.  The last three
entries of `ADDITIONAL_RESEARCH_PHRASES` are mojibake in the source file
itself (UTF-8 bytes of Chinese text decoded as Latin-1 and re-encoded): the
file literally contains the characters written below, e.g. the fifth entry is
`ç` `Ÿ` `¥` `è` `¯` `†` `ç` `©` `º` `ç` `™` `½` — note the UPPERCASE `Ÿ`
(U+0178) in entries five and six.
-/
def ADDITIONAL_RESEARCH_PHRASES : List String :=
  [ "additional research needed"
  , "more information required"
  , "knowledge gap"
  , "insufficient information"
  , "çŸ¥è¯†ç©ºç™½"
  , "ä¸å¤Ÿæ¸…æ™°"
  , "é¢å¤–ç ”ç©¶"
  ]

/-- `needs_additional_research`: lowercase the analysis text, then test each
phrase of the vocabulary for occurrence as a contiguous substring
(Python `phrase in analysis_text`). The phrases themselves are NOT lowered. -/
def needs_additional_research (analysis_text : String) : Bool :=
  ADDITIONAL_RESEARCH_PHRASES.any (fun p => decide (p.data <:+: pyLowerStr analysis_text))

/-- The spec's reading of the test: some vocabulary phrase occurs in the
analysis text under case-insensitive matching, i.e. the lowered phrase occurs
in the lowered text. -/
def gapPhraseOccursCI (analysis_text : String) : Prop :=
  ∃ p ∈ ADDITIONAL_RESEARCH_PHRASES, p.data.map pyLower <:+: pyLowerStr analysis_text

instance (s : String) : Decidable (gapPhraseOccursCI s) := by
  unfold gapPhraseOccursCI; infer_instance

/-!
## `LanguageTools`  (language_tools.py, lines 13–49)

`detect_and_set_language` consults the external detector only when the
configured language is `"auto"`; otherwise it returns `self.language` without
touching `self._current_language` (which `__init__` sets to `"english"`).
The detector (`detect_query_language`) is an external collaborator of this
component and is a parameter of the embedding.
-/
structure LanguageTools where
  language : String
  auto_detect_language : Bool
  /-- the `_current_language` field -/
  current_language : String
deriving DecidableEq, Repr

/-- `LanguageTools.__init__` -/
def LanguageTools.init (language : String) : LanguageTools :=
  { language := language
  , auto_detect_language := language == "auto"
  , current_language := "english" }

/-- `detect_and_set_language`: returns the detected / configured language and
the (possibly updated) state. -/
def detect_and_set_language (detector : String → String) (lt : LanguageTools)
    (query : String) : String × LanguageTools :=
  if lt.auto_detect_language then
    let detected_language := detector query
    (detected_language, { lt with current_language := detected_language })
  else
    (lt.language, lt)

/-- `get_current_language` -/
def get_current_language (lt : LanguageTools) : String :=
  lt.current_language

/-- Run a sequence of `detect_and_set_language` calls, keeping the state. -/
def processQueries (detector : String → String) (lt : LanguageTools)
    (queries : List String) : LanguageTools :=
  queries.foldl (fun st q => (detect_and_set_language detector st q).2) lt

/-! ### Helper lemmas -/

theorem detect_fixed_lang_id (detector : String → String) (lang : String)
    (h : lang ≠ "auto") (q : String) :
    detect_and_set_language detector (LanguageTools.init lang) q
      = (lang, LanguageTools.init lang) := by
  have hb : (lang == "auto") = false := by
    exact beq_eq_false_iff_ne.mpr h
  simp [detect_and_set_language, LanguageTools.init, hb]

theorem processQueries_fixed_lang (detector : String → String) (lang : String)
    (h : lang ≠ "auto") (queries : List String) :
    processQueries detector (LanguageTools.init lang) queries
      = LanguageTools.init lang := by
  induction queries with
  | nil => rfl
  | cons q qs ih =>
    have step := detect_fixed_lang_id detector lang h q
    simpa [processQueries, step] using ih

/-!
## `clean_text_for_deepseek`  (enhanced_search.py, lines 310–335)

The sanitizer applied to every text field of a search result (and, via
`clean_content_for_deepseek`, to fetched page content).  Its steps, in source
order: drop `\x00`, replace the control ranges
`[\x00-\x08\x0B\x0C\x0E-\x1F\x7F-\x9F]` by a space, replace every character
outside the allowlist `[\x20-\x7E一-鿿㐀-䶿　-〿＀-￯]`
by a space, collapse every whitespace run (`\s+`) to one space, and strip.
-/

/-- The characters Python's `\s` (and `str.strip()`) treats as whitespace. -/
def pyIsSpace (c : Char) : Bool :=
  (0x09 ≤ c.toNat && c.toNat ≤ 0x0D) || c.toNat == 0x20
    || (0x1C ≤ c.toNat && c.toNat ≤ 0x1F) || c.toNat == 0x85 || c.toNat == 0xA0
    || c.toNat == 0x1680 || (0x2000 ≤ c.toNat && c.toNat ≤ 0x200A)
    || c.toNat == 0x2028 || c.toNat == 0x2029 || c.toNat == 0x202F
    || c.toNat == 0x205F || c.toNat == 0x3000

/-- Membership in the regex class `[\x00-\x08\x0B\x0C\x0E-\x1F\x7F-\x9F]`
(the C0/C1 control characters the code blanks out). -/
def isStrippedControl (c : Char) : Bool :=
  c.toNat ≤ 0x08 || c.toNat == 0x0B || c.toNat == 0x0C
    || (0x0E ≤ c.toNat && c.toNat ≤ 0x1F) || (0x7F ≤ c.toNat && c.toNat ≤ 0x9F)

/-- Membership in the allowlist
`[\x20-\x7E一-鿿㐀-䶿　-〿＀-￯]`. -/
def isAllowedChar (c : Char) : Bool :=
  (0x20 ≤ c.toNat && c.toNat ≤ 0x7E) || (0x4E00 ≤ c.toNat && c.toNat ≤ 0x9FFF)
    || (0x3400 ≤ c.toNat && c.toNat ≤ 0x4DBF) || (0x3000 ≤ c.toNat && c.toNat ≤ 0x303F)
    || (0xFF00 ≤ c.toNat && c.toNat ≤ 0xFFEF)

/-- `text.replace('\x00', '')` -/
def removeNull (l : PyStr) : PyStr :=
  l.filter (fun c => !(c == '\x00'))

/-- `re.sub(r'[\x00-\x08\x0B\x0C\x0E-\x1F\x7F-\x9F]', ' ', text)` -/
def blankControls (l : PyStr) : PyStr :=
  l.map (fun c => if isStrippedControl c then ' ' else c)

/-- `re.sub(r'[^...allowlist...]', ' ', text)` -/
def blankDisallowed (l : PyStr) : PyStr :=
  l.map (fun c => if isAllowedChar c then c else ' ')

/-- `re.sub(r'\s+', ' ', text)`: each maximal whitespace run becomes one
single space (the single space replacing a run is emitted when the run's last
character is reached). -/
def collapseWs : PyStr → PyStr
  | [] => []
  | [c] => if pyIsSpace c then [' '] else [c]
  | c :: c2 :: rest =>
    if pyIsSpace c then
      (if pyIsSpace c2 then collapseWs (c2 :: rest) else ' ' :: collapseWs (c2 :: rest))
    else c :: collapseWs (c2 :: rest)

/-- `text.strip()` -/
def pyStrip (l : PyStr) : PyStr :=
  ((l.dropWhile pyIsSpace).reverse.dropWhile pyIsSpace).reverse

/-- `clean_text_for_deepseek` (a local function of `_format_search_results`):
the four substitution passes in source order, then
`if not text.strip(): return "N/A"` / `return text.strip()`. -/
def clean_text_for_deepseek (text : PyStr) : PyStr :=
  if text.isEmpty then []
  else
    let t := collapseWs (blankDisallowed (blankControls (removeNull text)))
    if (pyStrip t).isEmpty then "N/A".data
    else pyStrip t

/-! ### Shape of sanitized text

`CleanShape l` collects the invariants of `clean_text_for_deepseek`'s output
on which idempotence rests: every character is in the allowlist, the only
whitespace character present is the plain space, no two spaces are adjacent,
and the ends are not spaces. -/

def NoAdjSpaces (l : PyStr) : Prop :=
  List.Chain' (fun a b => ¬(pyIsSpace a = true ∧ pyIsSpace b = true)) l

structure CleanShape (l : PyStr) : Prop where
  allowed : ∀ c ∈ l, isAllowedChar c = true
  spaceBlank : ∀ c ∈ l, pyIsSpace c = true → c = ' '
  noAdj : NoAdjSpaces l
  headClean : ∀ c ∈ l.head?, pyIsSpace c = false
  lastClean : ∀ c ∈ l.getLast?, pyIsSpace c = false

theorem allowed_not_control {c : Char} (h : isAllowedChar c = true) :
    isStrippedControl c = false := by
  simp only [isAllowedChar, Bool.or_eq_true, Bool.and_eq_true, decide_eq_true_eq,
    beq_iff_eq] at h
  simp only [isStrippedControl, Bool.or_eq_false_iff, Bool.and_eq_false_iff,
    decide_eq_false_iff_not, beq_eq_false_iff_ne, ne_eq]
  omega

theorem allowed_not_null {c : Char} (h : isAllowedChar c = true) :
    (c == '\x00') = false := by
  simp only [isAllowedChar, Bool.or_eq_true, Bool.and_eq_true, decide_eq_true_eq,
    beq_iff_eq] at h
  have : c.toNat ≠ 0 := by omega
  simp only [beq_eq_false_iff_ne, ne_eq]
  intro hc
  exact this (by rw [hc]; rfl)

theorem space_allowed : isAllowedChar ' ' = true := by decide

/-- Characters of `collapseWs l` are characters of `l` or the space. -/
theorem mem_collapseWs {c : Char} : ∀ {l : PyStr}, c ∈ collapseWs l → c ∈ l ∨ c = ' '
  | [], h => by simp [collapseWs] at h
  | [a], h => by
    by_cases ha : pyIsSpace a = true
    · simp only [collapseWs, if_pos ha, List.mem_singleton] at h
      exact Or.inr h
    · simp only [collapseWs, if_neg ha, List.mem_singleton] at h
      exact Or.inl (by simp [h])
  | a :: b :: r, h => by
    by_cases ha : pyIsSpace a = true
    · by_cases hb : pyIsSpace b = true
      · rw [collapseWs, if_pos ha, if_pos hb] at h
        rcases mem_collapseWs h with hm | hs
        · exact Or.inl (List.mem_cons_of_mem _ hm)
        · exact Or.inr hs
      · rw [collapseWs, if_pos ha, if_neg hb] at h
        rcases List.mem_cons.mp h with rfl | h
        · exact Or.inr rfl
        · rcases mem_collapseWs h with hm | hs
          · exact Or.inl (List.mem_cons_of_mem _ hm)
          · exact Or.inr hs
    · rw [collapseWs, if_neg ha] at h
      rcases List.mem_cons.mp h with rfl | h
      · exact Or.inl (List.mem_cons_self _ _)
      · rcases mem_collapseWs h with hm | hs
        · exact Or.inl (List.mem_cons_of_mem _ hm)
        · exact Or.inr hs

/-- Every whitespace character of `collapseWs l` is the plain space. -/
theorem collapseWs_spaceBlank : ∀ (l : PyStr), ∀ c ∈ collapseWs l,
    pyIsSpace c = true → c = ' '
  | [], c, hc, _ => by simp [collapseWs] at hc
  | [a], c, hc, hsp => by
    by_cases ha : pyIsSpace a = true
    · simp only [collapseWs, if_pos ha, List.mem_singleton] at hc
      exact hc
    · simp only [collapseWs, if_neg ha, List.mem_singleton] at hc
      subst hc
      exact absurd hsp (by simp [ha])
  | a :: b :: r, c, hc, hsp => by
    by_cases ha : pyIsSpace a = true
    · by_cases hb : pyIsSpace b = true
      · rw [collapseWs, if_pos ha, if_pos hb] at hc
        exact collapseWs_spaceBlank (b :: r) c hc hsp
      · rw [collapseWs, if_pos ha, if_neg hb] at hc
        rcases List.mem_cons.mp hc with rfl | hc
        · rfl
        · exact collapseWs_spaceBlank (b :: r) c hc hsp
    · rw [collapseWs, if_neg ha] at hc
      rcases List.mem_cons.mp hc with rfl | hc
      · exact absurd hsp (by simp [ha])
      · exact collapseWs_spaceBlank (b :: r) c hc hsp

/-- If the head of the text is not whitespace, `collapseWs` keeps it in place. -/
theorem collapseWs_cons_of_not_space {a : Char} (rest : PyStr)
    (ha : ¬ pyIsSpace a = true) : collapseWs (a :: rest) = a :: collapseWs rest := by
  cases rest with
  | nil => simp [collapseWs, ha]
  | cons b r => rw [collapseWs, if_neg ha]

theorem head?_collapseWs_cons_not_space {a : Char} {rest : PyStr}
    (ha : ¬ pyIsSpace a = true) : (collapseWs (a :: rest)).head? = some a := by
  rw [collapseWs_cons_of_not_space rest ha]; rfl

/-- `collapseWs` leaves no two adjacent whitespace characters. -/
theorem collapseWs_noAdj : ∀ (l : PyStr), NoAdjSpaces (collapseWs l)
  | [] => by simp [collapseWs, NoAdjSpaces]
  | [a] => by
    by_cases ha : pyIsSpace a = true <;>
      simp [collapseWs, ha, NoAdjSpaces]
  | a :: b :: r => by
    have tail := collapseWs_noAdj (b :: r)
    by_cases ha : pyIsSpace a = true
    · by_cases hb : pyIsSpace b = true
      · rw [collapseWs, if_pos ha, if_pos hb]
        exact tail
      · rw [collapseWs, if_pos ha, if_neg hb]
        unfold NoAdjSpaces at tail ⊢
        rw [List.chain'_cons']
        refine ⟨?_, tail⟩
        intro y hy
        rw [head?_collapseWs_cons_not_space hb] at hy
        simp only [Option.mem_def, Option.some.injEq] at hy
        subst hy
        simp [hb]
    · rw [collapseWs, if_neg ha]
      unfold NoAdjSpaces at tail ⊢
      rw [List.chain'_cons']
      refine ⟨?_, tail⟩
      intro y _
      simp [ha]

/-- On text whose only whitespace is the single space and with no two spaces
adjacent, `collapseWs` is the identity. -/
theorem collapseWs_eq_self : ∀ (l : PyStr),
    (∀ c ∈ l, pyIsSpace c = true → c = ' ') → NoAdjSpaces l → collapseWs l = l
  | [], _, _ => rfl
  | [a], hblank, _ => by
    by_cases ha : pyIsSpace a = true
    · have haeq : a = ' ' := hblank a (List.mem_cons_self _ _) ha
      simp [collapseWs, ha, haeq]
    · simp [collapseWs, ha]
  | a :: b :: r, hblank, hadj => by
    have hadj' : NoAdjSpaces (b :: r) := (List.chain'_cons.mp hadj).2
    have hblank' : ∀ c ∈ b :: r, pyIsSpace c = true → c = ' ' :=
      fun c hc hs => hblank c (List.mem_cons_of_mem _ hc) hs
    by_cases ha : pyIsSpace a = true
    · have haeq : a = ' ' := hblank a (List.mem_cons_self _ _) ha
      have hb : ¬ pyIsSpace b = true := by
        intro hb
        exact (List.chain'_cons.mp hadj).1 ⟨ha, hb⟩
      rw [collapseWs, if_pos ha, if_neg hb,
        collapseWs_eq_self (b :: r) hblank' hadj', haeq]
    · rw [collapseWs, if_neg ha, collapseWs_eq_self (b :: r) hblank' hadj']

/-! ### Shape and identity facts about `pyStrip` -/

theorem head?_dropWhile_clean (p : Char → Bool) (l : PyStr) :
    ∀ c ∈ (l.dropWhile p).head?, p c = false := by
  induction l with
  | nil => intro c hc; simp at hc
  | cons a rest ih =>
    intro c hc
    by_cases ha : p a = true
    · rw [List.dropWhile_cons_of_pos ha] at hc
      exact ih c hc
    · rw [List.dropWhile_cons_of_neg ha] at hc
      simp only [List.head?_cons, Option.mem_def, Option.some.injEq] at hc
      subst hc
      simpa using ha

theorem dropWhile_eq_self_of_head (p : Char → Bool) (l : PyStr)
    (h : ∀ c ∈ l.head?, p c = false) : l.dropWhile p = l := by
  cases l with
  | nil => rfl
  | cons a rest =>
    have : p a = false := h a rfl
    simp [List.dropWhile_cons, this]

theorem pyStrip_sublist (l : PyStr) : (pyStrip l).Sublist l := by
  unfold pyStrip
  have h1 : (l.dropWhile pyIsSpace).Sublist l := (List.dropWhile_suffix _).sublist
  have h2 : ((l.dropWhile pyIsSpace).reverse.dropWhile pyIsSpace).Sublist
      (l.dropWhile pyIsSpace).reverse := (List.dropWhile_suffix _).sublist
  have h3 := h2.reverse
  rw [List.reverse_reverse] at h3
  exact h3.trans h1

theorem mem_pyStrip {c : Char} {l : PyStr} (h : c ∈ pyStrip l) : c ∈ l :=
  (pyStrip_sublist l).mem h

theorem pyStrip_headClean (l : PyStr) : ∀ c ∈ (pyStrip l).head?, pyIsSpace c = false := by
  intro c hc
  unfold pyStrip at hc
  rw [List.head?_reverse] at hc
  set m := (l.dropWhile pyIsSpace).reverse.dropWhile pyIsSpace with hm
  rcases List.eq_nil_or_concat m with hnil | ⟨t, b, hcat⟩
  · rw [hnil] at hc; simp at hc
  · rw [hcat, List.concat_eq_append, List.getLast?_append_of_ne_nil _ (by simp)] at hc
    simp only [List.getLast?_singleton, Option.mem_def, Option.some.injEq] at hc
    subst hc
    -- the last element of `dropWhile p (reverse (dropWhile p l))` is, when the
    -- list is nonempty, the last element of `reverse (dropWhile p l)`, i.e. the
    -- head of `dropWhile p l`, which is clean; but easier: `m` is a suffix of
    -- `reverse (dropWhile p l)`, whose getLast? is `(dropWhile p l).head?`.
    have hsuf : m <:+ (l.dropWhile pyIsSpace).reverse := List.dropWhile_suffix _
    rcases hsuf with ⟨t', ht'⟩
    have hne : m ≠ [] := by rw [hcat]; exact List.concat_ne_nil _ _
    have : (l.dropWhile pyIsSpace).reverse.getLast? = m.getLast? := by
      rw [← ht']
      exact List.getLast?_append_of_ne_nil _ hne
    rw [List.getLast?_reverse] at this
    have hb : b ∈ (l.dropWhile pyIsSpace).head? := by
      rw [this, hcat, List.concat_eq_append,
        List.getLast?_append_of_ne_nil _ (by simp), List.getLast?_singleton]
      rfl
    exact head?_dropWhile_clean pyIsSpace l b hb

theorem pyStrip_lastClean (l : PyStr) : ∀ c ∈ (pyStrip l).getLast?, pyIsSpace c = false := by
  intro c hc
  unfold pyStrip at hc
  rw [List.getLast?_reverse] at hc
  exact head?_dropWhile_clean pyIsSpace _ c hc

theorem pyStrip_eq_self (l : PyStr) (h1 : ∀ c ∈ l.head?, pyIsSpace c = false)
    (h2 : ∀ c ∈ l.getLast?, pyIsSpace c = false) : pyStrip l = l := by
  unfold pyStrip
  rw [dropWhile_eq_self_of_head _ _ h1]
  rw [dropWhile_eq_self_of_head _ _ (by rwa [List.head?_reverse])]
  exact List.reverse_reverse l

theorem noAdj_sublist {l l' : PyStr} (h : NoAdjSpaces l) (hs : l' <:+ l) :
    NoAdjSpaces l' := h.suffix hs

theorem pyStrip_noAdj {l : PyStr} (h : NoAdjSpaces l) : NoAdjSpaces (pyStrip l) := by
  unfold pyStrip
  have h1 : NoAdjSpaces (l.dropWhile pyIsSpace) := h.suffix (List.dropWhile_suffix _)
  have h2 : NoAdjSpaces (l.dropWhile pyIsSpace).reverse := by
    unfold NoAdjSpaces at h1 ⊢
    rw [List.chain'_reverse]
    exact h1.imp (fun {a b} hab => by tauto)
  have h3 : NoAdjSpaces ((l.dropWhile pyIsSpace).reverse.dropWhile pyIsSpace) :=
    h2.suffix (List.dropWhile_suffix _)
  unfold NoAdjSpaces at h3 ⊢
  rw [List.chain'_reverse]
  exact h3.imp (fun {a b} hab => by tauto)

/-! ### The output of the sanitizer has the clean shape -/

theorem blankDisallowed_allowed (l : PyStr) :
    ∀ c ∈ blankDisallowed l, isAllowedChar c = true := by
  intro c hc
  unfold blankDisallowed at hc
  rcases List.mem_map.mp hc with ⟨a, _, ha⟩
  by_cases h : isAllowedChar a = true
  · rw [if_pos h] at ha; rwa [← ha]
  · rw [if_neg h] at ha; rw [← ha]; exact space_allowed

theorem cleanShape_NA : CleanShape "N/A".data := by
  refine ⟨?_, ?_, ?_, ?_, ?_⟩
  · decide
  · decide
  · show NoAdjSpaces ['N', '/', 'A']
    unfold NoAdjSpaces
    refine List.chain'_cons.mpr ⟨by decide, List.chain'_cons.mpr ⟨by decide, ?_⟩⟩
    exact List.chain'_singleton _
  · intro c hc
    have : c = 'N' := by
      simpa [Option.mem_def, eq_comm] using hc
    subst this; decide
  · intro c hc
    have : c = 'A' := by
      show c = 'A'
      have : ("N/A".data : PyStr).getLast? = some 'A' := by decide
      rw [this] at hc
      simpa [Option.mem_def, eq_comm] using hc
    subst this; decide

theorem clean_output_shape (x : PyStr) : CleanShape (clean_text_for_deepseek x) := by
  unfold clean_text_for_deepseek
  by_cases hx : x.isEmpty
  · rw [if_pos hx]
    exact ⟨by simp, by simp, by simp [NoAdjSpaces], by simp, by simp⟩
  · rw [if_neg hx]
    set t := collapseWs (blankDisallowed (blankControls (removeNull x))) with ht
    by_cases hs : (pyStrip t).isEmpty
    · rw [if_pos hs]
      exact cleanShape_NA
    · rw [if_neg hs]
      have hall : ∀ c ∈ t, isAllowedChar c = true := by
        intro c hc
        rcases mem_collapseWs hc with hm | rfl
        · exact blankDisallowed_allowed _ c hm
        · exact space_allowed
      refine ⟨?_, ?_, ?_, ?_, ?_⟩
      · intro c hc; exact hall c (mem_pyStrip hc)
      · intro c hc; exact collapseWs_spaceBlank _ c ((pyStrip_sublist t).mem hc)
      · exact pyStrip_noAdj (collapseWs_noAdj _)
      · exact pyStrip_headClean t
      · exact pyStrip_lastClean t

/-- On text with the clean shape, every stage of the sanitizer is the
identity, so the sanitizer returns nonempty clean input unchanged. -/
theorem clean_eq_self_of_shape (l : PyStr) (hl : CleanShape l) (hne : ¬ l.isEmpty) :
    clean_text_for_deepseek l = l := by
  unfold clean_text_for_deepseek
  rw [if_neg hne]
  have h1 : removeNull l = l := by
    apply List.filter_eq_self.mpr
    intro c hc
    simp [allowed_not_null (hl.allowed c hc)]
  have h2 : blankControls l = l := by
    unfold blankControls
    rw [List.map_congr_left (g := fun c => c)
      (fun c hc => by simp [allowed_not_control (hl.allowed c hc)])]
    simp
  have h3 : blankDisallowed l = l := by
    unfold blankDisallowed
    rw [List.map_congr_left (g := fun c => c) (fun c hc => by simp [hl.allowed c hc])]
    simp
  have h4 : collapseWs l = l := collapseWs_eq_self l hl.spaceBlank hl.noAdj
  have h5 : pyStrip l = l := pyStrip_eq_self l
    (fun c hc => hl.headClean c hc) (fun c hc => hl.lastClean c hc)
  show (let t := collapseWs (blankDisallowed (blankControls (removeNull l)))
    if (pyStrip t).isEmpty then "N/A".data else pyStrip t) = l
  rw [h1, h2, h3, h4]
  show (if (pyStrip l).isEmpty then "N/A".data else pyStrip l) = l
  rw [h5, if_neg hne]

/-! ## Claim C7 -/

/-- C7: the sanitizer applied to search-result text is idempotent, and its
output contains no character of the stripped control ranges (C0 controls,
DEL, C1 controls) — the code's own notion of "control or non-printable".
Every output character in fact lies in the explicit allowlist. -/
theorem C7_clean_text_idempotent (x : PyStr) :
    clean_text_for_deepseek (clean_text_for_deepseek x) = clean_text_for_deepseek x
    ∧ (∀ c ∈ clean_text_for_deepseek x, isStrippedControl c = false)
    ∧ (∀ c ∈ clean_text_for_deepseek x, isAllowedChar c = true) := by
  have hshape := clean_output_shape x
  refine ⟨?_, ?_, hshape.allowed⟩
  · by_cases hne : (clean_text_for_deepseek x).isEmpty
    · have : clean_text_for_deepseek x = [] := by
        simpa [List.isEmpty_iff] using hne
      rw [this]
      rfl
    · exact clean_eq_self_of_shape _ hshape hne
  · intro c hc
    exact allowed_not_control (hshape.allowed c hc)

/-!
## The cascading search resolver  (enhanced_search.py, lines 383–462)

`enhanced_web_search_with_summary` iterates a fixed, priority-ordered list of
backend functions; each attempt runs under a per-backend `try`/`except` that
logs and discards the failure; the first backend returning a non-empty result
list wins.  The backends themselves perform network I/O and read environment
credentials, so each backend's behaviour is a parameter of the embedding:
`.error msg` for an attempt that raised, `.ok rs` for one that returned `rs`.
`_try_news_search` is the one backend defined without I/O: it always returns
the empty list, and is embedded as such.
-/

structure SearchResult where
  title : String
  link : String
  snippet : String
  source : String
deriving DecidableEq, Repr

/-- What one backend call does: raise (`error`) or return a result list. -/
abbrev BackendOutcome := Except String (List SearchResult)

/-- Behaviour of the six effectful backends. -/
structure SearchEnv where
  tavily : BackendOutcome
  serpapi : BackendOutcome
  google : BackendOutcome
  googlesearchLib : BackendOutcome
  duckduckgo : BackendOutcome
  wikipedia : BackendOutcome

/-- `_try_news_search`: a placeholder that always returns no results. -/
def try_news_search : BackendOutcome := Except.ok []

/-- The `search_methods` list of `enhanced_web_search_with_summary`, in source
order, each paired with its `__name__`. -/
def search_methods (env : SearchEnv) : List (String × BackendOutcome) :=
  [ ("_try_tavily_search", env.tavily)
  , ("_try_serpapi_search", env.serpapi)
  , ("_try_google_search", env.google)
  , ("_try_googlesearch_library", env.googlesearchLib)
  , ("_try_duckduckgo_search", env.duckduckgo)
  , ("_try_wikipedia_search", env.wikipedia)
  , ("_try_news_search", try_news_search)
  ]

/-- The resolver's loop.  Returns the names of the backends actually
attempted (in order), the final value of `results`, and `successful_method`.
A raising backend (`except ... continue`) and a backend returning zero
results both fall through to the next; a non-empty result breaks. -/
def run_search_methods : List (String × BackendOutcome) →
    List String × List SearchResult × Option String
  | [] => ([], [], none)
  | (name, Except.error _) :: rest =>
    let r := run_search_methods rest
    (name :: r.1, r.2)
  | (name, Except.ok rs) :: rest =>
    if rs.isEmpty then
      let r := run_search_methods rest
      (name :: r.1, r.2)
    else ([name], rs, some name)

/-- One backend attempt that contributes nothing: it raised, or returned
zero results. -/
def isFailedOrEmpty : BackendOutcome → Bool
  | Except.error _ => true
  | Except.ok rs => rs.isEmpty

/-- `list(set(...))`: CPython's set iteration order is unspecified; the
embedding fixes first-occurrence order.  No claim depends on this order. -/
def pySetList (l : List String) : List String :=
  l.foldl (fun acc s => if s ∈ acc then acc else acc ++ [s]) []

/-- `s[:n]` -/
def pyTake (n : Nat) (s : String) : String :=
  String.mk (s.data.take n)

/-- `'://' in link` -/
def hasScheme (link : String) : Bool :=
  decide ("://".data <:+: link.data)

/-- `link.split('/')[2]` (guarded by `'://' in link`, which guarantees at
least three parts). -/
def domainOf (link : String) : String :=
  (link.splitOn "/").getD 2 "Unknown"

/-- `clean_text_for_deepseek`, lifted back to `String`. -/
def cleanS (s : String) : String :=
  String.mk (clean_text_for_deepseek s.data)

/-- One `### Result i: ...` block of `_format_search_results`. -/
def formatResultBlock (i : Nat) (r : SearchResult) : String :=
  "### Result " ++ toString i ++ ": " ++ pyTake 200 (cleanS r.title) ++ "\n"
    ++ "**Source**: " ++ pyTake 100 (cleanS r.source) ++ "\n"
    ++ "**URL**: " ++ r.link ++ "\n"
    ++ "**Summary**: " ++ pyTake 500 (cleanS r.snippet) ++ "\n\n"
    ++ "---\n\n"

/-- `_format_search_results` (enhanced_search.py, lines 301–380).  `now` is
the rendered `datetime.now()` timestamp, an external input. -/
def format_search_results (results : List SearchResult) (query : String)
    (now : String) : String :=
  if results.isEmpty then
    "No search results found for query: " ++ query
  else
    let sources := pySetList ((results.map (·.source)).filter (fun s => !(s == "")))
    let clean_query := cleanS query
    let header :=
      "## Search Results Summary\n**Query**: " ++ clean_query
        ++ "\n**Results Count**: " ++ toString results.length
        ++ "\n**Sources**: " ++ String.intercalate ", " (sources.map cleanS)
        ++ "\n**Search Time**: " ++ now
        ++ "\n\n## Detailed Results\n\n"
    let body := String.join
      ((List.enumFrom 1 results).map (fun p => formatResultBlock p.1 p.2))
    let formatted := cleanS (header ++ body)
    let formatted :=
      if formatted.data.length > 2500 then
        pyTake 2500 formatted ++ "\n\n[Search results truncated due to length limit]"
      else formatted
    if (pyStrip formatted.data).isEmpty then
      "Search completed for query: " ++ clean_query
        ++ ", but no valid results could be formatted."
    else formatted

structure PreviewItem where
  title : String
  domain : String
  snippet : String
  source : String
deriving DecidableEq, Repr

/-- The `summary_data` dictionary.  Keys that the failure branch of the
source does not set (`domains`, `results_preview`, `error` on success) are
modelled as the empty list / `none`. -/
structure SummaryData where
  query : String
  total_results : Nat
  sources : List String
  domains : List String
  search_method : String
  timestamp : String
  status : String
  errorDetail : Option String
  results_preview : List PreviewItem
deriving DecidableEq, Repr

/-- `enhanced_web_search_with_summary` (enhanced_search.py, lines 383–462). -/
def enhanced_web_search_with_summary (env : SearchEnv) (query now : String) :
    String × SummaryData :=
  let r := run_search_methods (search_methods env)
  let results := r.2.1
  if results.isEmpty then
    ( "Search temporarily unavailable for query: '" ++ query ++ "'"
    , { query := query
      , total_results := 0
      , sources := []
      , domains := []
      , search_method := "failed"
      , timestamp := now
      , status := "failed"
      , errorDetail := some "All search methods failed"
      , results_preview := [] } )
  else
    let sources := pySetList ((results.map (·.source)).filter (fun s => !(s == "")))
    let domains0 := pySetList
      (results.map (fun res => if hasScheme res.link then domainOf res.link else "Unknown"))
    let domains := domains0.filter (fun d => !(d == "Unknown"))
    ( format_search_results results query now
    , { query := query
      , total_results := results.length
      , sources := sources
      , domains := domains.take 5
      , search_method := (r.2.2).getD "None"
      , timestamp := now
      , status := "success"
      , errorDetail := none
      , results_preview := (results.take 3).map (fun res =>
          { title := pyTake 100 res.title
          , domain := if hasScheme res.link then domainOf res.link else "Unknown"
          , snippet := pyTake 150 res.snippet
          , source := if res.source == "" then "Unknown" else res.source }) } )

/-! ### The loop's contract -/

theorem run_search_methods_cons_error (name e rest) :
    run_search_methods ((name, Except.error e) :: rest)
      = (name :: (run_search_methods rest).1, (run_search_methods rest).2) := by
  rw [run_search_methods]

theorem run_search_methods_cons_empty (name rest rs) (h : rs.isEmpty = true) :
    run_search_methods ((name, Except.ok rs) :: rest)
      = (name :: (run_search_methods rest).1, (run_search_methods rest).2) := by
  rw [run_search_methods, if_pos h]

theorem run_search_methods_cons_win (name rest rs) (h : ¬ rs.isEmpty = true) :
    run_search_methods ((name, Except.ok rs) :: rest) = ([name], rs, some name) := by
  rw [run_search_methods, if_neg h]

/-- Full characterisation of the resolver loop in the all-fail case, by
induction on the backend list: every backend was attempted (once, in order),
the final `results` is empty, and each backend raised or returned nothing. -/
theorem run_search_methods_spec (methods : List (String × BackendOutcome)) :
    (run_search_methods methods).2.2 = none →
      ((run_search_methods methods).1 = methods.map Prod.fst
        ∧ (run_search_methods methods).2.1 = []
        ∧ ∀ p ∈ methods, isFailedOrEmpty p.2 = true) := by
  induction methods with
  | nil => intro _; exact ⟨rfl, rfl, by simp⟩
  | cons hd rest ih =>
    obtain ⟨name, out⟩ := hd
    intro hnone
    match out with
    | Except.error e =>
      rw [run_search_methods_cons_error] at hnone ⊢
      obtain ⟨h1, h2, h3⟩ := ih hnone
      refine ⟨by simp [h1], h2, ?_⟩
      intro p hp
      rcases List.mem_cons.mp hp with rfl | hp
      · rfl
      · exact h3 p hp
    | Except.ok rs =>
      by_cases hrs : rs.isEmpty
      · rw [run_search_methods_cons_empty _ _ _ hrs] at hnone ⊢
        obtain ⟨h1, h2, h3⟩ := ih hnone
        refine ⟨by simp [h1], h2, ?_⟩
        intro p hp
        rcases List.mem_cons.mp hp with rfl | hp
        · simpa [isFailedOrEmpty] using hrs
        · exact h3 p hp
      · rw [run_search_methods_cons_win _ _ _ hrs] at hnone
        simp at hnone

/-- The winning case of the loop: the first backend with results wins and
short-circuits everything after it (attempts stop at its position). -/
theorem run_search_methods_win_spec (methods : List (String × BackendOutcome))
    (name : String) (h : (run_search_methods methods).2.2 = some name) :
    ∃ k, k < methods.length
      ∧ (run_search_methods methods).1 = (methods.take (k + 1)).map Prod.fst
      ∧ methods.get? k = some (name, Except.ok (run_search_methods methods).2.1)
      ∧ (run_search_methods methods).2.1 ≠ []
      ∧ ∀ j < k, ∀ p, methods.get? j = some p → isFailedOrEmpty p.2 = true := by
  induction methods with
  | nil => simp [run_search_methods] at h
  | cons hd rest ih =>
    obtain ⟨name', out⟩ := hd
    match out with
    | Except.error e =>
      rw [run_search_methods_cons_error] at h ⊢
      obtain ⟨k, hk, h1, h2, h3, h4⟩ := ih h
      refine ⟨k + 1, by simpa using hk, by simp [h1], by simpa using h2, h3, ?_⟩
      intro j hj p hp
      match j with
      | 0 =>
        simp only [List.get?_cons_zero, Option.some.injEq] at hp
        rw [← hp]; rfl
      | j' + 1 =>
        exact h4 j' (by omega) p (by simpa using hp)
    | Except.ok rs =>
      by_cases hrs : rs.isEmpty
      · rw [run_search_methods_cons_empty _ _ _ hrs] at h ⊢
        obtain ⟨k, hk, h1, h2, h3, h4⟩ := ih h
        refine ⟨k + 1, by simpa using hk, by simp [h1], by simpa using h2, h3, ?_⟩
        intro j hj p hp
        match j with
        | 0 =>
          simp only [List.get?_cons_zero, Option.some.injEq] at hp
          rw [← hp]
          simpa [isFailedOrEmpty] using hrs
        | j' + 1 =>
          exact h4 j' (by omega) p (by simpa using hp)
      · rw [run_search_methods_cons_win _ _ _ hrs] at h ⊢
        simp only [Option.some.injEq] at h
        subst h
        refine ⟨0, by simp, by simp, by simp, by simpa using hrs, by omega⟩

/-! ## Claim C2 -/

/-- Every backend of the environment either raises or yields zero results. -/
def AllBackendsFail (env : SearchEnv) : Prop :=
  ∀ p ∈ search_methods env, isFailedOrEmpty p.2 = true

instance (env : SearchEnv) : Decidable (AllBackendsFail env) := by
  unfold AllBackendsFail; infer_instance

/-- C2: for every combination of backend availability, the resolver is a
total function (the per-backend failures are consumed by the loop, so callers
get an ordinary return value); when every backend raises or yields zero
results it returns the degraded-service message together with summary data
whose status is `"failed"`. -/
theorem C2_resolver_degrades_on_total_failure (env : SearchEnv) (query now : String)
    (hfail : AllBackendsFail env) :
    (enhanced_web_search_with_summary env query now).1
        = "Search temporarily unavailable for query: '" ++ query ++ "'"
      ∧ (enhanced_web_search_with_summary env query now).2.status = "failed"
      ∧ (enhanced_web_search_with_summary env query now).2.errorDetail
          = some "All search methods failed"
      ∧ (enhanced_web_search_with_summary env query now).2.search_method = "failed"
      ∧ (enhanced_web_search_with_summary env query now).2.total_results = 0 := by
  have hempty : (run_search_methods (search_methods env)).2.1 = [] := by
    rcases hnone : (run_search_methods (search_methods env)).2.2 with _ | name
    · exact (run_search_methods_spec _ hnone).2.1
    · obtain ⟨k, _, _, hget, hne, _⟩ := run_search_methods_win_spec _ name hnone
      have hmem : (name, Except.ok (run_search_methods (search_methods env)).2.1)
          ∈ search_methods env := List.get?_mem hget
      have := hfail _ hmem
      simp only [isFailedOrEmpty] at this
      exact absurd (List.isEmpty_iff.mp this) hne
  unfold enhanced_web_search_with_summary
  rw [if_pos (List.isEmpty_iff.mpr hempty)]
  exact ⟨rfl, rfl, rfl, rfl, rfl⟩

/-- C2, witness: every backend raises (missing credentials / network error),
for the query `"quantum computing"`. -/
theorem C2_resolver_degrades_on_total_failure_witness :
    (enhanced_web_search_with_summary
        ⟨Except.error "Tavily Search API key not configured",
         Except.error "SerpAPI key not configured",
         Except.error "Google Search API credentials not configured",
         Except.error "googlesearch library not available",
         Except.error "timeout", Except.error "timeout"⟩
        "quantum computing" "2026-10-12T00:00:00").1
        = "Search temporarily unavailable for query: 'quantum computing'"
      ∧ (enhanced_web_search_with_summary
        ⟨Except.error "Tavily Search API key not configured",
         Except.error "SerpAPI key not configured",
         Except.error "Google Search API credentials not configured",
         Except.error "googlesearch library not available",
         Except.error "timeout", Except.error "timeout"⟩
        "quantum computing" "2026-10-12T00:00:00").2.status = "failed"
      ∧ (enhanced_web_search_with_summary
        ⟨Except.error "Tavily Search API key not configured",
         Except.error "SerpAPI key not configured",
         Except.error "Google Search API credentials not configured",
         Except.error "googlesearch library not available",
         Except.error "timeout", Except.error "timeout"⟩
        "quantum computing" "2026-10-12T00:00:00").2.errorDetail
          = some "All search methods failed"
      ∧ (enhanced_web_search_with_summary
        ⟨Except.error "Tavily Search API key not configured",
         Except.error "SerpAPI key not configured",
         Except.error "Google Search API credentials not configured",
         Except.error "googlesearch library not available",
         Except.error "timeout", Except.error "timeout"⟩
        "quantum computing" "2026-10-12T00:00:00").2.search_method = "failed"
      ∧ (enhanced_web_search_with_summary
        ⟨Except.error "Tavily Search API key not configured",
         Except.error "SerpAPI key not configured",
         Except.error "Google Search API credentials not configured",
         Except.error "googlesearch library not available",
         Except.error "timeout", Except.error "timeout"⟩
        "quantum computing" "2026-10-12T00:00:00").2.total_results = 0 :=
  C2_resolver_degrades_on_total_failure _ "quantum computing" "2026-10-12T00:00:00"
    (by decide)

/-! ## Claim C8 -/

/-- C8: the resolver tries the seven backends in their fixed priority order;
a backend's failure is discarded and the loop moves on without retrying it
(the attempted backends are exactly a prefix of the priority list — each
appears at most once); the first backend with at least one result wins and
no backend after it is attempted. -/
theorem C8_backend_priority_short_circuit (env : SearchEnv) :
    (search_methods env).map Prod.fst
        = [ "_try_tavily_search", "_try_serpapi_search", "_try_google_search"
          , "_try_googlesearch_library", "_try_duckduckgo_search"
          , "_try_wikipedia_search", "_try_news_search" ]
      ∧ ((run_search_methods (search_methods env)).2.2 = none →
          (run_search_methods (search_methods env)).1
              = (search_methods env).map Prod.fst
            ∧ ∀ p ∈ search_methods env, isFailedOrEmpty p.2 = true)
      ∧ (∀ name, (run_search_methods (search_methods env)).2.2 = some name →
          ∃ k, k < (search_methods env).length
            ∧ (run_search_methods (search_methods env)).1
                = ((search_methods env).take (k + 1)).map Prod.fst
            ∧ (search_methods env).get? k
                = some (name, Except.ok (run_search_methods (search_methods env)).2.1)
            ∧ (run_search_methods (search_methods env)).2.1 ≠ []
            ∧ ∀ j < k, ∀ p, (search_methods env).get? j = some p →
                isFailedOrEmpty p.2 = true) := by
  refine ⟨rfl, ?_, ?_⟩
  · intro hnone
    obtain ⟨h1, _, h3⟩ := run_search_methods_spec _ hnone
    exact ⟨h1, h3⟩
  · intro name hname
    exact run_search_methods_win_spec _ name hname

/-!
## `get_page_content`  (enhanced_search.py, lines 466–567)

The whole body is one `try`/`except Exception`, whose handler returns
`f"Error fetching page content from {url}: {str(e)}"`.  External effects are
parameters: the HTTP fetch (`requests.get` + `raise_for_status` +
`response.text`), the availability of `bs4`/`markdownify` (`ImportError`
falls back to a regex tag stripper), and the soup/markdown conversion (whose
own exceptions also reach the outer handler).
-/

/-- `clean_content_for_deepseek` (the local cleaner of `get_page_content`):
the same passes as `clean_text_for_deepseek` but with no `"N/A"` fallback. -/
def clean_content_for_deepseek (content : PyStr) : PyStr :=
  if content.isEmpty then []
  else pyStrip (collapseWs (blankDisallowed (blankControls (removeNull content))))

/-- `re.sub(r'\n{3,}', '\n\n', text)`: runs of three or more newlines
become two. -/
def collapseNewlines3 : PyStr → PyStr
  | '\n' :: '\n' :: '\n' :: rest => collapseNewlines3 ('\n' :: '\n' :: rest)
  | c :: rest => c :: collapseNewlines3 rest
  | [] => []
termination_by l => l.length
decreasing_by all_goals simp_arith

/-- `re.sub(r'<[^>]+>', ' ', text)`: each `<...>` group (with at least one
non-`>` character inside) becomes a space. -/
def stripTags : PyStr → PyStr
  | [] => []
  | '<' :: rest =>
    match h : rest.findIdx? (fun c => c == '>') with
    | some 0 => '<' :: stripTags rest
    | some (i + 1) => ' ' :: stripTags (rest.drop (i + 2))
    | none => '<' :: stripTags rest
  | c :: rest => c :: stripTags rest
termination_by l => l.length
decreasing_by all_goals simp_arith [List.length_drop]

structure FetchEnv where
  /-- `requests.get(...)` / `raise_for_status()` / `response.text`:
  the page text, or the exception's rendering. -/
  response : Except String String
  /-- whether `from bs4 import BeautifulSoup` / `markdownify` succeed. -/
  bs4_available : Bool
  /-- the soup pipeline: raw markdown conversion of the page plus
  `soup.title.text` (`none` when the page has no title); `.error` when any
  of those library calls raises. -/
  parse : Except String (String × Option String)
  /-- rendered `datetime.now()`. -/
  now : String

/-- `get_page_content`. -/
def get_page_content (env : FetchEnv) (url : String) (max_chars : Nat) : String :=
  match env.response with
  | Except.error e => "Error fetching page content from " ++ url ++ ": " ++ e
  | Except.ok htmlText =>
    if env.bs4_available then
      match env.parse with
      | Except.error e => "Error fetching page content from " ++ url ++ ": " ++ e
      | Except.ok (rawMarkdown, title?) =>
        let markdown_content := pyStrip (collapseNewlines3 rawMarkdown.data)
        let markdown_content := clean_content_for_deepseek markdown_content
        let title_text := clean_content_for_deepseek
          (match title? with | some t => t.data | none => "Web Page".data)
        let body :=
          if markdown_content.length > max_chars then markdown_content.take max_chars
          else markdown_content
        let result := "## Web Content: " ++ String.mk title_text
          ++ "\n**Source**: " ++ url
          ++ "\n**Retrieved**: " ++ env.now
          ++ "\n\n" ++ String.mk body ++ "\n"
        let result :=
          if markdown_content.length > max_chars then
            result ++ "\n\n[Content truncated due to length limit]"
          else result
        let result := clean_content_for_deepseek result.data
        if result.isEmpty then
          "Successfully retrieved content from " ++ url
            ++ ", but content could not be properly formatted."
        else String.mk result
    else
      let text := pyStrip (collapseWs (stripTags htmlText.data))
      let body := if text.length > max_chars then text.take max_chars else text
      let result := "## 网页内容\n**来源**: " ++ url
        ++ "\n**获取时间**: " ++ env.now
        ++ "\n\n" ++ String.mk body ++ "\n"
      if text.length > max_chars then
        result ++ "\n\n[内容已截断，超出字符限制]"
      else result

/-! ## Claim C9 -/

/-- C9: `get_page_content` is a total function of its environment — every
exception inside the body is consumed by the outer handler — and on any
failure (the fetch raising: bad URL, network error, HTTP error status; or
the parse pipeline raising) it returns the descriptive error string as its
ordinary return value. -/
theorem C9_get_page_content_error_string (env : FetchEnv) (url : String)
    (max_chars : Nat) (e : String) :
    (env.response = Except.error e →
      get_page_content env url max_chars
        = "Error fetching page content from " ++ url ++ ": " ++ e)
    ∧ (∀ htmlText, env.response = Except.ok htmlText → env.bs4_available = true →
        env.parse = Except.error e →
        get_page_content env url max_chars
          = "Error fetching page content from " ++ url ++ ": " ++ e) := by
  constructor
  · intro h
    unfold get_page_content
    rw [h]
  · intro htmlText hok hbs4 hparse
    unfold get_page_content
    simp only [hok, hparse, hbs4, if_true]

/-!
## Python string search  (`str.find`, `in`, `str.split`)

`model_tools.DeepSeekModelWrapper._parse_deepseek_tool_calls` is written in
terms of `in`, `split` and `find`; these are modelled over `PyStr`.
-/

/-- `haystack.find(pat)` from offset `k` (the offset is only carried along to
report the absolute position). -/
def findSubAux (pat : PyStr) : PyStr → Nat → Option Nat
  | [], k => if pat.isEmpty then some k else none
  | c :: rest, k =>
    if pat.isPrefixOf (c :: rest) then some k else findSubAux pat rest (k + 1)

/-- `haystack.find(pat)` (with `none` for Python's `-1`). -/
def findSub (pat l : PyStr) : Option Nat :=
  findSubAux pat l 0

/-- `haystack.find(pat, start)`. -/
def findSubFrom (pat l : PyStr) (start : Nat) : Option Nat :=
  (findSub pat (l.drop start)).map (· + start)

/-- `pat in haystack`. -/
def containsSub (pat l : PyStr) : Bool :=
  (findSub pat l).isSome

/-! ### `findSub` specification -/

theorem findSubAux_some_spec (pat : PyStr) : ∀ (l : PyStr) (k j : Nat),
    findSubAux pat l k = some j →
      k ≤ j ∧ pat.isPrefixOf (l.drop (j - k)) = true
  | [], k, j, h => by
    unfold findSubAux at h
    by_cases hp : pat.isEmpty
    · rw [if_pos hp] at h
      simp only [Option.some.injEq] at h
      subst h
      refine ⟨le_refl _, ?_⟩
      simp only [List.drop_nil]
      cases pat with
      | nil => rfl
      | cons a t => simp at hp
    · rw [if_neg hp] at h; exact absurd h (by simp)
  | c :: rest, k, j, h => by
    unfold findSubAux at h
    by_cases hp : pat.isPrefixOf (c :: rest) = true
    · rw [if_pos hp] at h
      simp only [Option.some.injEq] at h
      subst h
      simpa using hp
    · rw [if_neg hp] at h
      obtain ⟨h1, h2⟩ := findSubAux_some_spec pat rest (k + 1) j h
      refine ⟨by omega, ?_⟩
      have : j - k = (j - (k + 1)) + 1 := by omega
      rw [this, List.drop_succ_cons]
      exact h2

/-- If an occurrence exists at `j` and none earlier, `find` returns `j`. -/
theorem findSubAux_eq_some (pat : PyStr) : ∀ (l : PyStr) (k j : Nat),
    pat.isPrefixOf (l.drop j) = true →
    (∀ i < j, pat.isPrefixOf (l.drop i) = false) →
    findSubAux pat l k = some (k + j)
  | l, k, 0, hj, _ => by
    cases l with
    | nil =>
      have hp : pat.isEmpty = true := by
        simp only [List.drop_nil] at hj
        cases pat with
        | nil => rfl
        | cons a t => simp [List.isPrefixOf] at hj
      unfold findSubAux
      rw [if_pos hp, Nat.add_zero]
    | cons c rest =>
      unfold findSubAux
      rw [if_pos (by simpa using hj), Nat.add_zero]
  | l, k, j + 1, hj, hmin => by
    cases l with
    | nil =>
      exfalso
      have h0 := hmin 0 (by omega)
      simp only [List.drop_nil] at hj h0
      rw [hj] at h0
      simp at h0
    | cons c rest =>
      have h0 : pat.isPrefixOf (c :: rest) = false := by
        have := hmin 0 (by omega)
        simpa using this
      unfold findSubAux
      rw [if_neg (by simp [h0])]
      have hrec := findSubAux_eq_some pat rest (k + 1) j
        (by rwa [List.drop_succ_cons] at hj)
        (fun i hi => by
          have := hmin (i + 1) (by omega)
          rwa [List.drop_succ_cons] at this)
      rw [hrec]
      congr 1
      omega

theorem findSub_eq_some (pat l : PyStr) (j : Nat)
    (hj : pat.isPrefixOf (l.drop j) = true)
    (hmin : ∀ i < j, pat.isPrefixOf (l.drop i) = false) :
    findSub pat l = some j := by
  have := findSubAux_eq_some pat l 0 j hj hmin
  simpa [findSub] using this

theorem findSubAux_eq_none (pat : PyStr) : ∀ (l : PyStr) (k : Nat),
    (∀ i, pat.isPrefixOf (l.drop i) = false) →
    findSubAux pat l k = none
  | [], k, h => by
    have h0 := h 0
    simp only [List.drop_nil] at h0
    unfold findSubAux
    rw [if_neg]
    intro hp
    cases pat with
    | nil => simp [List.isPrefixOf] at h0
    | cons a t => simp at hp
  | c :: rest, k, h => by
    have h0 : pat.isPrefixOf (c :: rest) = false := by
      have := h 0
      simpa using this
    unfold findSubAux
    rw [if_neg (by simp [h0])]
    exact findSubAux_eq_none pat rest (k + 1)
      (fun i => by have := h (i + 1); rwa [List.drop_succ_cons] at this)

theorem findSub_eq_none (pat l : PyStr)
    (h : ∀ i, pat.isPrefixOf (l.drop i) = false) : findSub pat l = none :=
  findSubAux_eq_none pat l 0 h

/-- `pat` cannot match where the text's character differs from `pat`'s first
character. -/
theorem isPrefixOf_false_of_head {pat l : PyStr} {c0 : Char}
    (hpat : pat.head? = some c0) (hl : ∀ c ∈ l.head?, c ≠ c0) (hne : l = [] → pat ≠ []) :
    pat.isPrefixOf l = false := by
  cases pat with
  | nil => simp at hpat
  | cons p ps =>
    have hp : p = c0 := by simpa using hpat
    subst hp
    cases l with
    | nil => rfl
    | cons a rest =>
      have ha : a ≠ p := hl a rfl
      have hbeq : (p == a) = false := beq_eq_false_iff_ne.mpr (Ne.symm ha)
      simp [List.isPrefixOf, hbeq]

/-- When `pat` fits inside the first block of an append, matching ignores the
second block. -/
theorem isPrefixOf_append_of_le {pat : PyStr} : ∀ {u : PyStr} (v : PyStr),
    pat.length ≤ u.length → pat.isPrefixOf (u ++ v) = pat.isPrefixOf u := by
  induction pat with
  | nil => intro u v _; cases u <;> simp [List.isPrefixOf]
  | cons p ps ih =>
    intro u v hlen
    cases u with
    | nil => simp at hlen
    | cons a rest =>
      simp only [List.cons_append, List.isPrefixOf, List.append_eq]
      have := ih v (u := rest) (by simpa using hlen)
      simp only [List.append_eq] at this
      rw [this]

/-- Decidable guard: `pat` has no occurrence starting anywhere in `A`
(`A ++ pat` covers windows that would cross `A`'s right edge). -/
def noMatchBefore (pat A : PyStr) : Bool :=
  (List.range A.length).all (fun i => !(pat.isPrefixOf ((A ++ pat).drop i)))

/-- Decidable guard: `pat` occurs nowhere in the closed text `A`. -/
def noOccurIn (pat A : PyStr) : Bool :=
  (List.range (A.length + 1)).all (fun i => !(pat.isPrefixOf (A.drop i)))

theorem findSub_marker_concrete (pat A v : PyStr) (hpat : pat ≠ [])
    (h : noMatchBefore pat A = true) :
    findSub pat (A ++ (pat ++ v)) = some A.length := by
  apply findSub_eq_some
  · rw [List.drop_left' rfl]
    exact List.isPrefixOf_iff_prefix.mpr ⟨v, rfl⟩
  · intro i hi
    have hdrop : (A ++ (pat ++ v)).drop i = (A ++ pat).drop i ++ v := by
      rw [← List.append_assoc]
      exact List.drop_append_of_le_length (by simp; omega)
    rw [hdrop, isPrefixOf_append_of_le v (by
      rw [List.length_drop, List.length_append]; omega)]
    have := List.all_eq_true.mp h i (List.mem_range.mpr hi)
    simpa using this

theorem findSub_charFilter (pat : PyStr) (c0 : Char) (hpat : pat.head? = some c0)
    (A v : PyStr) (hA : ∀ c ∈ A, c ≠ c0) :
    findSub pat (A ++ (pat ++ v)) = some A.length := by
  apply findSub_eq_some
  · rw [List.drop_left' rfl]
    exact List.isPrefixOf_iff_prefix.mpr ⟨v, rfl⟩
  · intro i hi
    apply isPrefixOf_false_of_head hpat
    · intro c hc
      have hdrop : (A ++ (pat ++ v)).drop i = A.drop i ++ (pat ++ v) :=
        List.drop_append_of_le_length (by omega)
      rw [hdrop] at hc
      have hne : A.drop i ≠ [] := by
        intro hnil
        have := congrArg List.length hnil
        simp only [List.length_drop, List.length_nil] at this
        omega
      obtain ⟨a, rest, hrest⟩ := List.exists_cons_of_ne_nil hne
      rw [hrest] at hc
      have hceq : a = c := by simpa using hc
      subst hceq
      refine hA a ?_
      have : a ∈ A.drop i := by rw [hrest]; exact List.mem_cons_self _ _
      exact (List.drop_suffix i A).sublist.mem this
    · intro hnil
      exfalso
      have hlen := congrArg List.length hnil
      rw [List.length_drop] at hlen
      simp only [List.length_append, List.length_nil] at hlen
      omega

theorem no_occur_append (pat : PyStr) (c0 : Char) (hpat : pat.head? = some c0)
    (u v : PyStr) (hu : ∀ c ∈ u, c ≠ c0)
    (hv : ∀ i, pat.isPrefixOf (v.drop i) = false) :
    ∀ i, pat.isPrefixOf ((u ++ v).drop i) = false := by
  intro i
  by_cases hi : i < u.length
  · apply isPrefixOf_false_of_head hpat
    · intro c hc
      rw [List.drop_append_of_le_length (by omega)] at hc
      have hne : u.drop i ≠ [] := by
        intro hnil
        have := congrArg List.length hnil
        simp only [List.length_drop, List.length_nil] at this
        omega
      obtain ⟨a, rest, hrest⟩ := List.exists_cons_of_ne_nil hne
      rw [hrest] at hc
      have hceq : a = c := by simpa using hc
      subst hceq
      refine hu a ?_
      have : a ∈ u.drop i := by rw [hrest]; exact List.mem_cons_self _ _
      exact (List.drop_suffix i u).sublist.mem this
    · intro hnil
      exfalso
      have hlen := congrArg List.length hnil
      rw [List.length_drop] at hlen
      simp only [List.length_append, List.length_nil] at hlen
      omega
  · have : (u ++ v).drop i = v.drop (i - u.length) := by
      rw [List.drop_append_eq_append_drop]
      rw [List.drop_eq_nil_of_le (by omega)]
      simp
    rw [this]
    exact hv _

theorem noOccurIn_spec (pat A : PyStr) (hpat : pat ≠ [])
    (h : noOccurIn pat A = true) : ∀ i, pat.isPrefixOf (A.drop i) = false := by
  intro i
  by_cases hi : i ≤ A.length
  · have := List.all_eq_true.mp h i (List.mem_range.mpr (by omega))
    simpa using this
  · rw [List.drop_eq_nil_of_le (by omega)]
    cases pat with
    | nil => exact absurd rfl hpat
    | cons p ps => rfl

/-! ### `str.split` -/

theorem findSub_some_bound (pat l : PyStr) (i : Nat) (hne : pat ≠ [])
    (h : findSub pat l = some i) : i + pat.length ≤ l.length := by
  obtain ⟨-, h2⟩ := findSubAux_some_spec pat l 0 i h
  simp only [Nat.sub_zero] at h2
  have := (List.isPrefixOf_iff_prefix.mp h2).length_le
  rw [List.length_drop] at this
  have hplen : 0 < pat.length := List.length_pos.mpr hne
  omega

/-- `text.split(sep)` for non-empty `sep` (Python raises on an empty
separator; the code only splits on fixed non-empty markers, so the guard
in the `some` branch never returns early on the code's inputs). -/
def pySplit (sep : PyStr) (l : PyStr) : List PyStr :=
  match hfind : findSub sep l with
  | none => [l]
  | some i =>
    if hsep : sep.length = 0 then [l]
    else l.take i :: pySplit sep (l.drop (i + sep.length))
termination_by l.length
decreasing_by
  simp only [List.length_drop]
  have hne : sep ≠ [] := by
    intro hnil
    rw [hnil] at hsep
    exact hsep rfl
  have hbound := findSub_some_bound sep l i hne hfind
  have : 0 < sep.length := List.length_pos.mpr hne
  omega

theorem pySplit_of_first (sep l : PyStr) (i : Nat) (hsep : sep.length ≠ 0)
    (h : findSub sep l = some i) :
    pySplit sep l = l.take i :: pySplit sep (l.drop (i + sep.length)) := by
  conv_lhs => rw [pySplit]
  split
  · rename_i heq
    rw [h] at heq
    exact Option.noConfusion heq
  · rename_i j heq
    rw [h] at heq
    injection heq with heq'
    subst heq'
    rw [dif_neg hsep]

theorem pySplit_of_none (sep l : PyStr)
    (h : findSub sep l = none) : pySplit sep l = [l] := by
  unfold pySplit
  split
  · rfl
  · rename_i j heq
    rw [h] at heq
    exact Option.noConfusion heq

/-!
## `DeepSeekModelWrapper._parse_deepseek_tool_calls`  (model_tools.py, 25–71)

The documented format is
`<｜tool▁calls▁begin｜><｜tool▁call▁begin｜>function<｜tool▁sep｜>NAME\n`
followed by a ```` ```json ```` fenced parameter block and the end markers.
`json.loads` is Python's JSON parser, an external collaborator: it is a
parameter `jsonParse`, returning `none` exactly when `json.loads` raises
`JSONDecodeError`.  The body runs under `try`/`except Exception`, so the
embedding is a total function into `Option`.
-/

def dsBegin : PyStr := "<｜tool▁calls▁begin｜>".data
def dsSep : PyStr := "<｜tool▁sep｜>".data
def dsCallBeginFn : PyStr := "<｜tool▁call▁begin｜>function".data
/-- Everything before the separator in a well-formed call. -/
def dsPre : PyStr := "<｜tool▁calls▁begin｜><｜tool▁call▁begin｜>function".data
def dsEnds : PyStr := "<｜tool▁call▁end｜><｜tool▁calls▁end｜>".data
def jsonFence : PyStr := "```json".data
def fence : PyStr := "```".data

structure ToolCallRequest (J : Type) where
  function_name : PyStr
  parameters : J
deriving DecidableEq

/-- `_parse_deepseek_tool_calls`. -/
def parse_deepseek_tool_calls {J : Type} (jsonParse : PyStr → Option J)
    (content : PyStr) : Option (ToolCallRequest J) :=
  if content.isEmpty || !(containsSub dsBegin content) then none
  else if !(containsSub dsSep content) then none
  else
    let parts := pySplit dsSep content
    if parts.length < 2 then none
    else
      let function_name :=
        pyStrip ((parts.getD 1 []).takeWhile (fun c => !(c == '\n')))
      match findSub jsonFence content with
      | none => none
      | some json_start =>
        match findSubFrom fence content (json_start + 7) with
        | none => none
        | some json_end =>
          let json_content :=
            pyStrip ((content.drop (json_start + 7)).take (json_end - (json_start + 7)))
          match jsonParse json_content with
          | none => none
          | some parameters =>
            some { function_name := function_name, parameters := parameters }

/-- A well-formed DeepSeek tool-call text, per the wrapper's docstring:
markers in order, the function name on the separator's line, the parameters
in a ```` ```json ```` fenced block. -/
def mkDeepseekToolCall (name payload : PyStr) : PyStr :=
  dsPre ++ dsSep ++ name ++ "\n```json\n".data ++ payload ++ "\n```".data ++ dsEnds

/-- The constraints under which the text is well-formed: a single-line
function name that is already whitespace-trimmed and contains no fence or
marker characters, and a payload free of fence or marker characters. -/
structure WFToolCall (name payload : PyStr) : Prop where
  name_chars : ∀ c ∈ name, c ≠ '\n' ∧ c ≠ '`' ∧ c ≠ '<'
  name_trimmed : pyStrip name = name
  payload_chars : ∀ c ∈ payload, c ≠ '`' ∧ c ≠ '<'

/-! ### Auxiliary lemmas for evaluating the parser on well-formed text -/

theorem takeWhile_append_all {p : Char → Bool} : ∀ (xs ys : PyStr),
    (∀ c ∈ xs, p c = true) → (xs ++ ys).takeWhile p = xs ++ ys.takeWhile p
  | [], _, _ => rfl
  | x :: xs, ys, h => by
    have hx : p x = true := h x (List.mem_cons_self _ _)
    simp only [List.cons_append, List.takeWhile_cons_of_pos hx]
    rw [takeWhile_append_all xs ys (fun c hc => h c (List.mem_cons_of_mem _ hc))]

theorem pyStrip_cons_space {c : Char} (m : PyStr) (hc : pyIsSpace c = true) :
    pyStrip (c :: m) = pyStrip m := by
  unfold pyStrip
  rw [List.dropWhile_cons_of_pos hc]

theorem pyStrip_append_space {c : Char} (m : PyStr) (hc : pyIsSpace c = true) :
    pyStrip (m ++ [c]) = pyStrip m := by
  unfold pyStrip
  rw [List.dropWhile_append]
  by_cases hm : (m.dropWhile pyIsSpace).isEmpty
  · rw [if_pos hm]
    have hm' : m.dropWhile pyIsSpace = [] := by simpa [List.isEmpty_iff] using hm
    rw [hm']
    simp [List.dropWhile_cons, hc]
  · rw [if_neg hm]
    rw [List.reverse_append]
    simp only [List.reverse_cons, List.reverse_nil, List.nil_append,
      List.singleton_append]
    rw [List.dropWhile_cons_of_pos hc]

/-- Evaluation of the parser on a well-formed tool-call text. -/
theorem parse_mk_deepseek {J : Type} (jsonParse : PyStr → Option J)
    (name payload : PyStr) (hwf : WFToolCall name payload) :
    parse_deepseek_tool_calls jsonParse (mkDeepseekToolCall name payload)
      = match jsonParse (pyStrip payload) with
        | none => none
        | some v => some { function_name := name, parameters := v } := by
  have hname := hwf.name_chars
  have hpay := hwf.payload_chars
  -- fixed marker facts, all decidable
  have hPreSplit : dsPre = dsBegin ++ dsCallBeginFn := by decide
  have hMidSplit : ("\n```json\n".data : PyStr) = ['\n'] ++ jsonFence ++ ['\n'] := by
    decide
  have hCloseSplit : ("\n```".data : PyStr) = ['\n'] ++ fence := by decide
  set content := mkDeepseekToolCall name payload with hcontent
  -- tail of the text after the first separator
  set tail : PyStr := name ++ "\n```json\n".data ++ payload ++ "\n```".data ++ dsEnds
    with htail
  have hcontent2 : content = dsPre ++ (dsSep ++ tail) := by
    rw [hcontent, htail]
    unfold mkDeepseekToolCall
    simp [List.append_assoc]
  -- (1) the text is non-empty and contains the begin marker
  have hne : content.isEmpty = false := by
    rw [hcontent2, hPreSplit]
    rfl
  have hbegin : findSub dsBegin content = some 0 := by
    have : content = [] ++ (dsBegin ++ (dsCallBeginFn ++ (dsSep ++ tail))) := by
      rw [hcontent2, hPreSplit]
      simp [List.append_assoc]
    rw [this]
    exact findSub_marker_concrete dsBegin [] _ (by decide) (by decide)
  have hbeginB : containsSub dsBegin content = true := by
    unfold containsSub
    rw [hbegin]
    rfl
  -- (2) the first separator occurrence is right after `dsPre`
  have hsepFind : findSub dsSep content = some dsPre.length := by
    rw [hcontent2]
    exact findSub_marker_concrete dsSep dsPre tail (by decide) (by decide)
  have hsepB : containsSub dsSep content = true := by
    unfold containsSub
    rw [hsepFind]
    rfl
  -- (3) no separator occurs in the tail
  have hsepTail : findSub dsSep tail = none := by
    apply findSub_eq_none
    have hassoc : tail
        = (name ++ "\n```json\n".data ++ payload ++ "\n```".data) ++ dsEnds := by
      rw [htail]
    rw [hassoc]
    apply no_occur_append dsSep '<' (by decide)
    · intro c hc
      simp only [List.append_assoc, List.mem_append] at hc
      rcases hc with hc | hc | hc | hc
      · exact (hname c hc).2.2
      · fin_cases hc <;> decide
      · exact (hpay c hc).2
      · fin_cases hc <;> decide
    · exact noOccurIn_spec dsSep dsEnds (by decide) (by decide)
  -- (4) the split has exactly two parts, the second being `tail`
  have hparts : pySplit dsSep content = [content.take dsPre.length, tail] := by
    rw [pySplit_of_first dsSep content dsPre.length (by decide) hsepFind]
    have hdrop : content.drop (dsPre.length + dsSep.length) = tail := by
      rw [hcontent2, ← List.append_assoc]
      exact List.drop_left' (by rw [List.length_append])
    rw [hdrop, pySplit_of_none dsSep tail hsepTail]
  -- (5) the function name: `tail` up to the newline, stripped
  have hfname : pyStrip (tail.takeWhile (fun c => !(c == '\n'))) = name := by
    have hassoc : tail = name ++ ('\n' :: (jsonFence ++ ['\n']
        ++ payload ++ "\n```".data ++ dsEnds)) := by
      rw [htail, hMidSplit]
      simp [List.append_assoc]
    rw [hassoc, takeWhile_append_all name _
      (fun c hc => by simp [(hname c hc).1]),
      List.takeWhile_cons_of_neg (by decide), List.append_nil]
    exact hwf.name_trimmed
  -- (6) the json fence is found right after the name's newline
  set A1 : PyStr := dsPre ++ dsSep ++ name ++ ['\n'] with hA1
  set v1 : PyStr := ['\n'] ++ payload ++ "\n```".data ++ dsEnds with hv1
  have hcontent3 : content = A1 ++ (jsonFence ++ v1) := by
    rw [hcontent2, htail, hA1, hv1, hMidSplit]
    simp [List.append_assoc]
  have hjsonFind : findSub jsonFence content = some A1.length := by
    rw [hcontent3]
    apply findSub_charFilter jsonFence '`' (by decide)
    intro c hc
    rw [hA1] at hc
    simp only [List.append_assoc, List.mem_append] at hc
    rcases hc with hc | hc | hc | hc
    · fin_cases hc <;> decide
    · fin_cases hc <;> decide
    · exact (hname c hc).2.1
    · fin_cases hc <;> decide
  -- (7) the closing fence is the first ``` after the json fence
  set A2 : PyStr := ['\n'] ++ payload ++ ['\n'] with hA2
  have hv1split : v1 = A2 ++ (fence ++ dsEnds) := by
    rw [hv1, hA2, hCloseSplit]
    simp [List.append_assoc]
  have h7 : jsonFence.length = 7 := by decide
  have hdrop7 : content.drop (A1.length + 7) = v1 := by
    rw [hcontent3, ← List.append_assoc]
    exact List.drop_left' (by rw [List.length_append, h7])
  have hfenceFind : findSub fence v1 = some A2.length := by
    rw [hv1split]
    apply findSub_charFilter fence '`' (by decide)
    intro c hc
    rw [hA2] at hc
    simp only [List.append_assoc, List.mem_append] at hc
    rcases hc with hc | hc | hc
    · fin_cases hc <;> decide
    · exact (hpay c hc).1
    · fin_cases hc <;> decide
  have hfenceFrom : findSubFrom fence content (A1.length + 7)
      = some (A2.length + (A1.length + 7)) := by
    unfold findSubFrom
    rw [hdrop7, hfenceFind]
    rfl
  -- (8) the json slice is exactly `A2`, whose strip is the payload's strip
  have hslice : (content.drop (A1.length + 7)).take
      ((A2.length + (A1.length + 7)) - (A1.length + 7)) = A2 := by
    rw [hdrop7, hv1split]
    have : (A2.length + (A1.length + 7)) - (A1.length + 7) = A2.length := by omega
    rw [this]
    exact List.take_left' rfl
  have hstripA2 : pyStrip A2 = pyStrip payload := by
    rw [hA2]
    have h1 : ('\n' :: (payload ++ ['\n']) : PyStr) = ['\n'] ++ payload ++ ['\n'] := by
      simp
    rw [← h1, pyStrip_cons_space _ (by decide), pyStrip_append_space _ (by decide)]
  -- assemble
  have hgetD : ([content.take dsPre.length, tail] : List PyStr).getD 1 [] = tail := rfl
  unfold parse_deepseek_tool_calls
  simp only [hne, hbeginB, hsepB, hparts, hgetD, Bool.not_true, Bool.or_false,
    Bool.false_eq_true, if_false, List.length_cons, List.length_nil,
    Nat.lt_irrefl, hjsonFind, hfenceFrom, hslice, hstripA2, hfname]

/-! ## Claim C3 -/

/-- C3: the tool-call extractor never raises (it is a total function into
`Option`); it returns `none` on empty text, on text lacking the begin
marker, and, for well-formed text, when the fenced payload fails to parse;
on well-formed text with a parsable payload it returns the request whose
function name is the text between the separator and the next line break and
whose parameters are the parse of the first ```` ```json ```` fenced block
after the separator. -/
theorem C3_tool_call_extractor {J : Type} (jsonParse : PyStr → Option J) :
    (parse_deepseek_tool_calls jsonParse [] = none)
    ∧ (∀ content, containsSub dsBegin content = false →
        parse_deepseek_tool_calls jsonParse content = none)
    ∧ (∀ name payload, WFToolCall name payload →
        jsonParse (pyStrip payload) = none →
        parse_deepseek_tool_calls jsonParse (mkDeepseekToolCall name payload) = none)
    ∧ (∀ name payload v, WFToolCall name payload →
        jsonParse (pyStrip payload) = some v →
        parse_deepseek_tool_calls jsonParse (mkDeepseekToolCall name payload)
          = some { function_name := name, parameters := v }) := by
  refine ⟨rfl, ?_, ?_, ?_⟩
  · intro content h
    unfold parse_deepseek_tool_calls
    rw [h]
    simp
  · intro name payload hwf hjson
    rw [parse_mk_deepseek jsonParse name payload hwf, hjson]
  · intro name payload v hwf hjson
    rw [parse_mk_deepseek jsonParse name payload hwf, hjson]

/-!
## `ResearchAgentSystem.research_stream`  (research_agent.py, lines 86–381)

The orchestrator is an asynchronous generator; its embedding is the finite
list of events it yields.  The three model-backed agents are external
collaborators: the initial researcher and analyst calls either return text or
raise (`Except`), the per-round `conduct_additional_research` /
`analyze_findings` calls are functions of the round index and their text
input, and the writer's `stream_async` is a list of streamed events possibly
followed by a raised exception.  Event fields not examined by any claim
(`message`, the `data` payloads other than `research_loops`) are omitted;
events that carry no `progress` key (the error events) have `progress =
none`.  Progress values are exact rationals (`87 + n * 0.5` is exact in
binary floating point, so ℚ is a faithful model).
-/

structure Event where
  type : String
  progress : Option ℚ := none
  step : String
  stage : String
  /-- `data['research_loops']`, present only on the `complete` event. -/
  research_loops : Option Nat := none
deriving DecidableEq, Repr

inductive WriterEvt where
  /-- an event with a `"data"` key: one text chunk -/
  | data (chunk : String)
  /-- an event with a truthy `"complete"` key -/
  | complete
  /-- an event with an `"error"` key -/
  | err (msg : String)
deriving DecidableEq, Repr

/-- The behaviour of the external agent collaborators in one session. -/
structure Behavior where
  /-- outcome of the initial researcher call
  (`conduct_research_step_stream`) -/
  research : Except String String
  /-- outcome of the initial analyst call (`analyze_findings_stream`) -/
  analysis : Except String String
  /-- `conduct_additional_research` at a given loop count and analysis -/
  additional : Nat → String → Except String String
  /-- `analyze_findings` at a given loop count and combined findings -/
  reanalyze : Nat → String → Except String String
  /-- events yielded by `writer_agent.stream_async` before it runs out -/
  writerEvents : List WriterEvt
  /-- exception raised by the writer stream after its events, if any -/
  writerExc : Option String

/-- The error chunk text of `generate_final_report_stream`
(`f"抱歉，生成报告时出现错误: {e}"`). -/
def apologyChunk (e : String) : String :=
  "抱歉，生成报告时出现错误: " ++ e

/-- `ReportTools.generate_final_report_stream` (report_tools.py, 38–79):
data events are forwarded as chunks; a truthy `complete` event breaks; an
`error` event yields the apology chunk and breaks; an exception raised by
the writer stream is caught and converted to the apology chunk.  The
generator itself never raises. -/
def report_stream_chunks : List WriterEvt → Option String → List String
  | [], none => []
  | [], some e => [apologyChunk e]
  | WriterEvt.data s :: rest, exc => s :: report_stream_chunks rest exc
  | WriterEvt.complete :: _, _ => []
  | WriterEvt.err e :: _, _ => [apologyChunk e]

def statusEv (p : ℚ) (step stage : String) : Event :=
  { type := "status", progress := some p, step := step, stage := stage }

def progressEv (p : ℚ) (step stage : String) : Event :=
  { type := "progress", progress := some p, step := step, stage := stage }

/-- The events of the `except` handlers: no `progress` key. -/
def errorEv (step stage : String) : Event :=
  { type := "error", step := step, stage := stage }

/-- `'progress': 60 + (research_loop_count * 10)` round-start event. -/
def refineStatusEv (count : Nat) : Event :=
  statusEv (60 + (count : ℚ) * 10) ("additional_research_" ++ toString count)
    "research"

/-- `'progress': 65 + ((research_loop_count-1) * 10)` round-done event
(emitted after the increment, so its number is the pre-increment count). -/
def refineDoneEv (count : Nat) : Event :=
  progressEv (65 + (count : ℚ) * 10)
    ("additional_research_" ++ toString count ++ "_complete") "research"

/-- Step 3 of `research_stream`: the additional-research `while` loop.
Returns the events yielded by the loop and, unless a collaborator raised
(`none`, in which case the generator's outer handler takes over), the final
loop count, analysis and findings. -/
def refineLoop (b : Behavior) (max_research_loops : Int) (count : Nat)
    (analysis findings : String) : List Event × Option (Nat × String × String) :=
  if h : (count : Int) < max_research_loops then
    if needs_additional_research analysis then
      match b.additional count analysis with
      | Except.error _ => ([refineStatusEv count], none)
      | Except.ok additional_research =>
        let combined := findings ++ "\n\n--- Additional Research ---\n\n"
          ++ additional_research
        match b.reanalyze count combined with
        | Except.error _ => ([refineStatusEv count], none)
        | Except.ok analysis' =>
          let rest := refineLoop b max_research_loops (count + 1) analysis' combined
          (refineStatusEv count :: refineDoneEv count :: rest.1, rest.2)
    else ([], some (count, analysis, findings))
  else ([], some (count, analysis, findings))
termination_by (max_research_loops - count).toNat
decreasing_by omega

/-- Python's two-argument `min`. -/
def pymin (a b : ℚ) : ℚ := if a ≤ b then a else b

/-- `'progress': min(87 + len(final_report_chunks) * 0.5, 95)`; `idx1` is
the 1-based chunk number (`len` after the append). -/
def reportChunkEv (idx1 : Nat) : Event :=
  { type := "report_chunk", progress := some (pymin (87 + (idx1 : ℚ) * (1/2)) 95)
  , step := "report_streaming", stage := "report" }

def chunkEvents (chunks : List String) : List Event :=
  (List.range chunks.length).map (fun i => reportChunkEv (i + 1))

/-- `research_stream`, as the list of yielded events. -/
def research_stream (b : Behavior) (max_research_loops : Int) : List Event :=
  statusEv 5 "initialization" "initialization" ::
  statusEv 15 "initial_research" "research" ::
  (match b.research with
   | Except.error _ => [errorEv "research_error" "research"]
   | Except.ok research_findings =>
     { type := "research_progress", progress := some 30
     , step := "research_complete", stage := "research" } ::
     progressEv 35 "initial_research_complete" "research" ::
     statusEv 45 "analysis" "analysis" ::
     (match b.analysis with
      | Except.error _ => [errorEv "analysis_error" "analysis"]
      | Except.ok analysis_result =>
        { type := "analysis_progress", progress := some 52
        , step := "analysis_complete", stage := "analysis" } ::
        progressEv 55 "analysis_complete" "analysis" ::
        (let loop := refineLoop b max_research_loops 1 analysis_result
          research_findings
         match loop.2 with
         | none => loop.1 ++ [errorEv "error" "error"]
         | some (research_loop_count, _, _) =>
           loop.1 ++
           statusEv 85 "final_report" "report" ::
           { type := "report_start", progress := some 87
           , step := "report_streaming_start", stage := "report" } ::
           (chunkEvents (report_stream_chunks b.writerEvents b.writerExc) ++
            [ progressEv 95 "final_report_complete" "report"
            , { type := "complete", progress := some 100, step := "complete"
              , stage := "complete", research_loops := some research_loop_count }
            ]))))

/-- The sequence of progress values carried by a session's events. -/
def progressSeq (events : List Event) : List ℚ :=
  events.filterMap (·.progress)

/-- Number of refinement rounds started: the loop's round-start `status`
events (stage `research`, step other than the initial-research step). -/
def startedRounds (events : List Event) : Nat :=
  (events.filter (fun ev =>
    ev.type == "status" && ev.stage == "research"
      && !(ev.step == "initial_research"))).length

/-! ### Unfolding equations for `refineLoop` -/

/-- The findings separator inserted between rounds. -/
def additionalSep : String := "\n\n--- Additional Research ---\n\n"

theorem refineLoop_stop (b : Behavior) (max : Int) (count : Nat) (a f : String)
    (h : ¬ (count : Int) < max) :
    refineLoop b max count a f = ([], some (count, a, f)) := by
  rw [refineLoop, dif_neg h]

theorem refineLoop_noNeed (b : Behavior) (max : Int) (count : Nat) (a f : String)
    (h : (count : Int) < max) (hn : needs_additional_research a = false) :
    refineLoop b max count a f = ([], some (count, a, f)) := by
  rw [refineLoop, dif_pos h]
  simp [hn]

theorem refineLoop_addErr (b : Behavior) (max : Int) (count : Nat) (a f e : String)
    (h : (count : Int) < max) (hn : needs_additional_research a = true)
    (he : b.additional count a = Except.error e) :
    refineLoop b max count a f = ([refineStatusEv count], none) := by
  rw [refineLoop, dif_pos h]
  simp [hn, he]

theorem refineLoop_reErr (b : Behavior) (max : Int) (count : Nat) (a f e s : String)
    (h : (count : Int) < max) (hn : needs_additional_research a = true)
    (ho : b.additional count a = Except.ok s)
    (he : b.reanalyze count (f ++ additionalSep ++ s) = Except.error e) :
    refineLoop b max count a f = ([refineStatusEv count], none) := by
  rw [refineLoop, dif_pos h]
  simp only [hn, if_true]
  rw [ho]
  simp only [additionalSep] at he
  simp [he]

theorem refineLoop_step (b : Behavior) (max : Int) (count : Nat) (a f s a' : String)
    (h : (count : Int) < max) (hn : needs_additional_research a = true)
    (ho : b.additional count a = Except.ok s)
    (hr : b.reanalyze count (f ++ additionalSep ++ s) = Except.ok a') :
    refineLoop b max count a f
      = (refineStatusEv count :: refineDoneEv count ::
          (refineLoop b max (count + 1) a' (f ++ additionalSep ++ s)).1,
         (refineLoop b max (count + 1) a' (f ++ additionalSep ++ s)).2) := by
  rw [refineLoop, dif_pos h]
  simp only [hn, if_true]
  rw [ho]
  simp only [additionalSep] at hr ⊢
  rw [hr]

/-! ### `progressSeq` computation -/

theorem progressSeq_nil : progressSeq [] = [] := rfl

theorem progressSeq_cons_mk (t : String) (p : ℚ) (s g : String) (r : Option Nat)
    (l : List Event) :
    progressSeq (⟨t, some p, s, g, r⟩ :: l) = p :: progressSeq l := rfl

theorem progressSeq_cons_none (t s g : String) (r : Option Nat) (l : List Event) :
    progressSeq (⟨t, none, s, g, r⟩ :: l) = progressSeq l := rfl

theorem progressSeq_append (l₁ l₂ : List Event) :
    progressSeq (l₁ ++ l₂) = progressSeq l₁ ++ progressSeq l₂ :=
  List.filterMap_append l₁ l₂ _

theorem progressSeq_statusEv (p : ℚ) (s g : String) (l : List Event) :
    progressSeq (statusEv p s g :: l) = p :: progressSeq l := rfl

theorem progressSeq_progressEv (p : ℚ) (s g : String) (l : List Event) :
    progressSeq (progressEv p s g :: l) = p :: progressSeq l := rfl

theorem progressSeq_errorEv (s g : String) (l : List Event) :
    progressSeq (errorEv s g :: l) = progressSeq l := rfl

theorem mem_of_head? {α : Type} {a : α} {l : List α} (h : a ∈ l.head?) : a ∈ l := by
  cases l with
  | nil => simp at h
  | cons b t =>
    have : b = a := by simpa using h
    rw [← this]
    exact List.mem_cons_self _ _

theorem mem_of_getLast? {α : Type} {a : α} {l : List α} (h : a ∈ l.getLast?) :
    a ∈ l := by
  rw [← List.head?_reverse] at h
  have := mem_of_head? h
  simpa using this

theorem cast_round_le {count : Nat} {max : Int} (h : (count : Int) < max) :
    (count : ℚ) + 1 ≤ (max : ℚ) := by
  have h' : (count : Int) + 1 ≤ max := h
  exact_mod_cast h'

/-! ### Characterisation of the refinement loop -/

/-- Bounds on every progress value the loop yields. -/
theorem refineLoop_bounds (b : Behavior) (max : Int) (count : Nat) (a f : String) :
    ∀ p ∈ progressSeq (refineLoop b max count a f).1,
      60 + (count : ℚ) * 10 ≤ p ∧ p ≤ 65 + ((max : ℚ) - 1) * 10 := by
  by_cases h : (count : Int) < max
  · by_cases hn : needs_additional_research a
    · have hcast := cast_round_le h
      rcases ho : b.additional count a with e | s
      · rw [refineLoop_addErr b max count a f e h hn ho]
        intro p hp
        simp only [refineStatusEv, progressSeq_statusEv, progressSeq_nil,
          List.mem_singleton] at hp
        subst hp
        constructor
        · linarith
        · linarith
      · rcases hr : b.reanalyze count (f ++ additionalSep ++ s) with e | a'
        · rw [refineLoop_reErr b max count a f e s h hn ho hr]
          intro p hp
          simp only [refineStatusEv, progressSeq_statusEv, progressSeq_nil,
            List.mem_singleton] at hp
          subst hp
          constructor
          · linarith
          · linarith
        · rw [refineLoop_step b max count a f s a' h hn ho hr]
          intro p hp
          simp only [refineStatusEv, refineDoneEv, progressSeq_statusEv,
            progressSeq_progressEv, List.mem_cons] at hp
          rcases hp with rfl | rfl | hp
          · constructor <;> linarith
          · constructor <;> linarith
          · have ih := refineLoop_bounds b max (count + 1) a'
              (f ++ additionalSep ++ s) p hp
            push_cast at ih ⊢
            constructor <;> linarith [ih.1, ih.2]
    · rw [refineLoop_noNeed b max count a f h (by simpa using hn)]
      intro p hp
      simp [progressSeq_nil] at hp
  · rw [refineLoop_stop b max count a f h]
    intro p hp
    simp [progressSeq_nil] at hp
termination_by (max - count).toNat
decreasing_by omega

/-- The loop's progress values are non-decreasing. -/
theorem refineLoop_chain (b : Behavior) (max : Int) (count : Nat) (a f : String) :
    List.Chain' (· ≤ ·) (progressSeq (refineLoop b max count a f).1) := by
  by_cases h : (count : Int) < max
  · by_cases hn : needs_additional_research a
    · rcases ho : b.additional count a with e | s
      · rw [refineLoop_addErr b max count a f e h hn ho]
        simp [refineStatusEv, progressSeq_statusEv, progressSeq_nil]
      · rcases hr : b.reanalyze count (f ++ additionalSep ++ s) with e | a'
        · rw [refineLoop_reErr b max count a f e s h hn ho hr]
          simp [refineStatusEv, progressSeq_statusEv, progressSeq_nil]
        · rw [refineLoop_step b max count a f s a' h hn ho hr]
          simp only [refineStatusEv, refineDoneEv, progressSeq_statusEv,
            progressSeq_progressEv]
          rw [List.chain'_cons]
          refine ⟨by linarith, ?_⟩
          rw [List.chain'_cons']
          refine ⟨?_, refineLoop_chain b max (count + 1) a' (f ++ additionalSep ++ s)⟩
          intro y hy
          have hb := refineLoop_bounds b max (count + 1) a'
            (f ++ additionalSep ++ s) y (mem_of_head? hy)
          push_cast at hb ⊢
          linarith [hb.1]
    · rw [refineLoop_noNeed b max count a f h (by simpa using hn)]
      simp [progressSeq_nil]
  · rw [refineLoop_stop b max count a f h]
    simp [progressSeq_nil]
termination_by (max - count).toNat
decreasing_by omega

/-- Shape of every event the loop yields: a round-start `status` or a
round-done `progress` event, in stage `research`, with no loop-count data. -/
theorem refineLoop_types (b : Behavior) (max : Int) (count : Nat) (a f : String) :
    ∀ ev ∈ (refineLoop b max count a f).1,
      (ev.type = "status" ∨ ev.type = "progress") ∧ ev.stage = "research"
        ∧ ev.research_loops = none := by
  by_cases h : (count : Int) < max
  · by_cases hn : needs_additional_research a
    · rcases ho : b.additional count a with e | s
      · rw [refineLoop_addErr b max count a f e h hn ho]
        intro ev hev
        simp only [List.mem_singleton] at hev
        subst hev
        exact ⟨Or.inl rfl, rfl, rfl⟩
      · rcases hr : b.reanalyze count (f ++ additionalSep ++ s) with e | a'
        · rw [refineLoop_reErr b max count a f e s h hn ho hr]
          intro ev hev
          simp only [List.mem_singleton] at hev
          subst hev
          exact ⟨Or.inl rfl, rfl, rfl⟩
        · rw [refineLoop_step b max count a f s a' h hn ho hr]
          intro ev hev
          simp only [List.mem_cons] at hev
          rcases hev with rfl | rfl | hev
          · exact ⟨Or.inl rfl, rfl, rfl⟩
          · exact ⟨Or.inr rfl, rfl, rfl⟩
          · exact refineLoop_types b max (count + 1) a'
              (f ++ additionalSep ++ s) ev hev
    · rw [refineLoop_noNeed b max count a f h (by simpa using hn)]
      intro ev hev
      simp at hev
  · rw [refineLoop_stop b max count a f h]
    intro ev hev
    simp at hev
termination_by (max - count).toNat
decreasing_by omega

/-- The final loop count: unchanged, or bounded by `max_research_loops`. -/
theorem refineLoop_count (b : Behavior) (max : Int) (count : Nat) (a f : String) :
    ∀ c' a' f', (refineLoop b max count a f).2 = some (c', a', f') →
      count ≤ c' ∧ (c' = count ∨ (c' : Int) ≤ max) := by
  by_cases h : (count : Int) < max
  · by_cases hn : needs_additional_research a
    · rcases ho : b.additional count a with e | s
      · rw [refineLoop_addErr b max count a f e h hn ho]
        intro c' a' f' hc
        simp at hc
      · rcases hr : b.reanalyze count (f ++ additionalSep ++ s) with e | a'
        · rw [refineLoop_reErr b max count a f e s h hn ho hr]
          intro c' a' f' hc
          simp at hc
        · rw [refineLoop_step b max count a f s a' h hn ho hr]
          intro c' a'' f' hc
          obtain ⟨h1, h2⟩ := refineLoop_count b max (count + 1) a'
            (f ++ additionalSep ++ s) c' a'' f' hc
          refine ⟨by omega, Or.inr ?_⟩
          rcases h2 with rfl | h2
          · exact_mod_cast h
          · exact h2
    · rw [refineLoop_noNeed b max count a f h (by simpa using hn)]
      intro c' a' f' hc
      simp only [Option.some.injEq, Prod.mk.injEq] at hc
      exact ⟨le_of_eq hc.1, Or.inl hc.1.symm⟩
  · rw [refineLoop_stop b max count a f h]
    intro c' a' f' hc
    simp only [Option.some.injEq, Prod.mk.injEq] at hc
    exact ⟨le_of_eq hc.1, Or.inl hc.1.symm⟩
termination_by (max - count).toNat
decreasing_by omega

/-- When every collaborator call succeeds, the loop reaches the report stage
(no outer exception). -/
theorem refineLoop_total (b : Behavior) (max : Int) (count : Nat) (a f : String)
    (hadd : ∀ k x, ∃ s, b.additional k x = Except.ok s)
    (hre : ∀ k x, ∃ s, b.reanalyze k x = Except.ok s) :
    ∃ c' a' f', (refineLoop b max count a f).2 = some (c', a', f') := by
  by_cases h : (count : Int) < max
  · by_cases hn : needs_additional_research a
    · obtain ⟨s, ho⟩ := hadd count a
      obtain ⟨a', hr⟩ := hre count (f ++ additionalSep ++ s)
      rw [refineLoop_step b max count a f s a' h hn ho hr]
      exact refineLoop_total b max (count + 1) a' (f ++ additionalSep ++ s) hadd hre
    · rw [refineLoop_noNeed b max count a f h (by simpa using hn)]
      exact ⟨count, a, f, rfl⟩
  · rw [refineLoop_stop b max count a f h]
    exact ⟨count, a, f, rfl⟩
termination_by (max - count).toNat
decreasing_by omega

/-! ### Report-chunk events -/

def chunkProg (i : Nat) : ℚ := pymin (87 + ((i : ℚ) + 1) * (1/2)) 95

theorem progressSeq_chunkEvents (chunks : List String) :
    progressSeq (chunkEvents chunks) = (List.range chunks.length).map chunkProg := by
  unfold chunkEvents progressSeq
  rw [List.filterMap_map]
  have : ∀ i : Nat,
      ((fun ev => ev.progress) ∘ fun i => reportChunkEv (i + 1)) i
        = (some ∘ chunkProg) i := by
    intro i
    simp only [Function.comp, reportChunkEv, chunkProg, Option.some.injEq]
    push_cast
    ring_nf
  rw [List.filterMap_congr (fun x _ => this x)]
  rw [List.filterMap_eq_map]

theorem chunkProg_bounds (i : Nat) : 87 ≤ chunkProg i ∧ chunkProg i ≤ 95 := by
  unfold chunkProg pymin
  have hi : (0 : ℚ) ≤ (i : ℚ) := Nat.cast_nonneg i
  split <;> constructor <;> linarith

theorem chunkProg_mono {i j : Nat} (h : i ≤ j) : chunkProg i ≤ chunkProg j := by
  unfold chunkProg pymin
  have : (i : ℚ) ≤ (j : ℚ) := by exact_mod_cast h
  split <;> split <;> linarith

theorem chunkSeq_chain (chunks : List String) :
    List.Chain' (· ≤ ·) ((List.range chunks.length).map chunkProg) := by
  rw [List.chain'_iff_get]
  intro i hi
  simp only [List.length_map, List.length_range] at hi
  rw [List.get_map, List.get_map]
  exact chunkProg_mono (by simp [List.get_range])

theorem chunkEvents_shape (chunks : List String) :
    ∀ ev ∈ chunkEvents chunks, ∃ i, ev = reportChunkEv (i + 1) := by
  intro ev hev
  unfold chunkEvents at hev
  rcases List.mem_map.mp hev with ⟨i, _, hi⟩
  exact ⟨i, hi.symm⟩

/-! ### Assembly lemmas for the full event stream -/

theorem chain'_cons_of_all (a : ℚ) (l : List ℚ) (h1 : ∀ y ∈ l, a ≤ y)
    (h2 : List.Chain' (· ≤ ·) l) : List.Chain' (· ≤ ·) (a :: l) :=
  List.chain'_cons'.mpr ⟨fun y hy => h1 y (mem_of_head? hy), h2⟩

theorem progress_mem_seq {ev : Event} {l : List Event} (hev : ev ∈ l) {p : ℚ}
    (hp : ev.progress = some p) : p ∈ progressSeq l :=
  List.mem_filterMap.mpr ⟨ev, hev, hp⟩

/-- With `max_research_loops ≤ 3` every loop progress value lies in
`[70, 85]`. -/
theorem refineLoop_bounds3 (b : Behavior) (max : Int) (hmax : max ≤ 3)
    (a f : String) :
    ∀ p ∈ progressSeq (refineLoop b max 1 a f).1, 70 ≤ p ∧ p ≤ 85 := by
  intro p hp
  have h := refineLoop_bounds b max 1 a f p hp
  have hq : (max : ℚ) ≤ 3 := by exact_mod_cast hmax
  push_cast at h
  constructor <;> linarith [h.1, h.2]

/-! ## Claim C1 -/

/-- C1, amended: when `max_research_loops` is at most 3 (in particular for
the configuration default of 2), the progress values of a session are
non-decreasing, a progress value of 100 occurs only on a `complete` event,
and at most one `complete` event is emitted.  (For larger loop bounds the
round progress formula `60 + 10·count` overshoots: see the
counterexample.) -/
theorem C1_progress_monotone_amended (b : Behavior) (max : Int) (hmax : max ≤ 3) :
    List.Chain' (· ≤ ·) (progressSeq (research_stream b max))
    ∧ (∀ ev ∈ research_stream b max, ev.progress = some 100 → ev.type = "complete")
    ∧ ((research_stream b max).filter
        (fun ev => decide (ev.type = "complete"))).length ≤ 1 := by
  rcases hres : b.research with e | rf
  · have hstream : research_stream b max
        = [statusEv 5 "initialization" "initialization",
           statusEv 15 "initial_research" "research",
           errorEv "research_error" "research"] := by
      simp [research_stream, hres]
    rw [hstream]
    refine ⟨?_, ?_, ?_⟩
    · simp only [progressSeq_statusEv, progressSeq_errorEv, progressSeq_nil]
      exact List.chain'_cons.mpr ⟨by norm_num, List.chain'_singleton _⟩
    · intro ev hev
      simp only [List.mem_cons, List.not_mem_nil, or_false] at hev
      rcases hev with rfl | rfl | rfl
      · intro h; exact absurd (Option.some.inj h) (by norm_num)
      · intro h; exact absurd (Option.some.inj h) (by norm_num)
      · intro h; exact Option.noConfusion h
    · simp [statusEv, errorEv]
  rcases hana : b.analysis with e | ar
  · have hstream : research_stream b max
        = [statusEv 5 "initialization" "initialization",
           statusEv 15 "initial_research" "research",
           ⟨"research_progress", some 30, "research_complete", "research", none⟩,
           progressEv 35 "initial_research_complete" "research",
           statusEv 45 "analysis" "analysis",
           errorEv "analysis_error" "analysis"] := by
      simp [research_stream, hres, hana]
    rw [hstream]
    refine ⟨?_, ?_, ?_⟩
    · simp only [progressSeq_statusEv, progressSeq_progressEv, progressSeq_cons_mk,
        progressSeq_errorEv, progressSeq_nil]
      refine List.chain'_cons.mpr ⟨by norm_num, ?_⟩
      refine List.chain'_cons.mpr ⟨by norm_num, ?_⟩
      refine List.chain'_cons.mpr ⟨by norm_num, ?_⟩
      refine List.chain'_cons.mpr ⟨by norm_num, List.chain'_singleton _⟩
    · intro ev hev
      simp only [List.mem_cons, List.not_mem_nil, or_false] at hev
      rcases hev with rfl | rfl | rfl | rfl | rfl | rfl
      · intro h; exact absurd (Option.some.inj h) (by norm_num)
      · intro h; exact absurd (Option.some.inj h) (by norm_num)
      · intro h; exact absurd (Option.some.inj h) (by norm_num)
      · intro h; exact absurd (Option.some.inj h) (by norm_num)
      · intro h; exact absurd (Option.some.inj h) (by norm_num)
      · intro h; exact Option.noConfusion h
    · simp [statusEv, progressEv, errorEv]
  · -- both agent calls succeeded: the loop runs
    have hSchain := refineLoop_chain b max 1 ar rf
    have hSbounds := refineLoop_bounds3 b max hmax ar rf
    have hStypes := refineLoop_types b max 1 ar rf
    have hS100 : ∀ ev ∈ (refineLoop b max 1 ar rf).1, ev.progress = some 100 →
        ev.type = "complete" := by
      intro ev hev hp
      have := (hSbounds 100 (progress_mem_seq hev hp)).2
      norm_num at this
    have hSnoComplete : ∀ ev ∈ (refineLoop b max 1 ar rf).1,
        ¬ ev.type = "complete" := by
      intro ev hev h
      rcases (hStypes ev hev).1 with ht | ht <;> rw [h] at ht <;> simp at ht
    rcases hloop : (refineLoop b max 1 ar rf).2 with _ | ⟨c', a', f'⟩
    · have hstream : research_stream b max
          = statusEv 5 "initialization" "initialization" ::
            statusEv 15 "initial_research" "research" ::
            ⟨"research_progress", some 30, "research_complete", "research", none⟩ ::
            progressEv 35 "initial_research_complete" "research" ::
            statusEv 45 "analysis" "analysis" ::
            ⟨"analysis_progress", some 52, "analysis_complete", "analysis", none⟩ ::
            progressEv 55 "analysis_complete" "analysis" ::
            ((refineLoop b max 1 ar rf).1 ++ [errorEv "error" "error"]) := by
        simp [research_stream, hres, hana, hloop]
      rw [hstream]
      refine ⟨?_, ?_, ?_⟩
      · simp only [progressSeq_statusEv, progressSeq_progressEv, progressSeq_cons_mk,
          progressSeq_append, progressSeq_errorEv, progressSeq_nil, List.append_nil]
        refine List.chain'_cons.mpr ⟨by norm_num, ?_⟩
        refine List.chain'_cons.mpr ⟨by norm_num, ?_⟩
        refine List.chain'_cons.mpr ⟨by norm_num, ?_⟩
        refine List.chain'_cons.mpr ⟨by norm_num, ?_⟩
        refine List.chain'_cons.mpr ⟨by norm_num, ?_⟩
        refine List.chain'_cons.mpr ⟨by norm_num, ?_⟩
        exact chain'_cons_of_all 55 _
          (fun y hy => by linarith [(hSbounds y hy).1]) hSchain
      · intro ev hev
        simp only [List.mem_cons, List.mem_append, List.not_mem_nil, or_false] at hev
        rcases hev with rfl | rfl | rfl | rfl | rfl | rfl | rfl | hev | rfl
        · intro h; exact absurd (Option.some.inj h) (by norm_num)
        · intro h; exact absurd (Option.some.inj h) (by norm_num)
        · intro h; exact absurd (Option.some.inj h) (by norm_num)
        · intro h; exact absurd (Option.some.inj h) (by norm_num)
        · intro h; exact absurd (Option.some.inj h) (by norm_num)
        · intro h; exact absurd (Option.some.inj h) (by norm_num)
        · intro h; exact absurd (Option.some.inj h) (by norm_num)
        · exact hS100 ev hev
        · intro h; exact Option.noConfusion h
      · rw [List.filter_cons_of_neg (by simp [statusEv]),
          List.filter_cons_of_neg (by simp [statusEv]),
          List.filter_cons_of_neg (by simp),
          List.filter_cons_of_neg (by simp [progressEv]),
          List.filter_cons_of_neg (by simp [statusEv]),
          List.filter_cons_of_neg (by simp),
          List.filter_cons_of_neg (by simp [progressEv]),
          List.filter_append,
          List.filter_eq_nil.mpr (fun ev hev => by simp [hSnoComplete ev hev]),
          List.filter_cons_of_neg (by simp [errorEv])]
        simp
    · have hstream : research_stream b max
          = statusEv 5 "initialization" "initialization" ::
            statusEv 15 "initial_research" "research" ::
            ⟨"research_progress", some 30, "research_complete", "research", none⟩ ::
            progressEv 35 "initial_research_complete" "research" ::
            statusEv 45 "analysis" "analysis" ::
            ⟨"analysis_progress", some 52, "analysis_complete", "analysis", none⟩ ::
            progressEv 55 "analysis_complete" "analysis" ::
            ((refineLoop b max 1 ar rf).1 ++
              statusEv 85 "final_report" "report" ::
              ⟨"report_start", some 87, "report_streaming_start", "report", none⟩ ::
              (chunkEvents (report_stream_chunks b.writerEvents b.writerExc) ++
               [progressEv 95 "final_report_complete" "report",
                ⟨"complete", some 100, "complete", "complete", some c'⟩])) := by
        simp [research_stream, hres, hana, hloop]
      rw [hstream]
      have hchunk100 : ∀ ev ∈ chunkEvents
          (report_stream_chunks b.writerEvents b.writerExc),
          ev.progress = some 100 → ev.type = "complete" := by
        intro ev hev hp
        obtain ⟨i, rfl⟩ := chunkEvents_shape _ ev hev
        have : chunkProg i = 100 := by
          have := Option.some.inj hp
          rw [← this]
          simp [reportChunkEv, chunkProg]
        have := (chunkProg_bounds i).2
        rw [‹chunkProg i = 100›] at this
        norm_num at this
      refine ⟨?_, ?_, ?_⟩
      · simp only [progressSeq_statusEv, progressSeq_progressEv, progressSeq_cons_mk,
          progressSeq_append, progressSeq_nil]
        rw [progressSeq_chunkEvents]
        refine List.chain'_cons.mpr ⟨by norm_num, ?_⟩
        refine List.chain'_cons.mpr ⟨by norm_num, ?_⟩
        refine List.chain'_cons.mpr ⟨by norm_num, ?_⟩
        refine List.chain'_cons.mpr ⟨by norm_num, ?_⟩
        refine List.chain'_cons.mpr ⟨by norm_num, ?_⟩
        refine List.chain'_cons.mpr ⟨by norm_num, ?_⟩
        -- 55 :: (loop ++ 85 :: 87 :: (chunks ++ [95, 100]))
        have htailchain : List.Chain' (· ≤ ·)
            ((85 : ℚ) :: 87 ::
              ((List.range (report_stream_chunks b.writerEvents b.writerExc).length).map
                chunkProg ++ [95, 100])) := by
          refine List.chain'_cons.mpr ⟨by norm_num, ?_⟩
          refine chain'_cons_of_all 87 _ ?_ ?_
          · intro y hy
            rcases List.mem_append.mp hy with hy | hy
            · rcases List.mem_map.mp hy with ⟨i, _, rfl⟩
              linarith [(chunkProg_bounds i).1]
            · simp only [List.mem_cons, List.not_mem_nil, or_false] at hy
              rcases hy with rfl | rfl <;> norm_num
          · rw [List.chain'_append]
            refine ⟨chunkSeq_chain _, ?_, ?_⟩
            · exact List.chain'_cons.mpr ⟨by norm_num, List.chain'_singleton _⟩
            · intro x hx y hy
              rcases List.mem_map.mp (mem_of_getLast? hx) with ⟨i, _, rfl⟩
              have hy' : 95 = y := by simpa using hy
              rw [← hy']
              exact (chunkProg_bounds i).2
        refine chain'_cons_of_all 55 _ ?_ ?_
        · intro y hy
          rcases List.mem_append.mp hy with hy | hy
          · linarith [(hSbounds y hy).1]
          · simp only [List.mem_cons] at hy
            rcases hy with rfl | rfl | hy
            · norm_num
            · norm_num
            · rcases List.mem_append.mp hy with hy | hy
              · rcases List.mem_map.mp hy with ⟨i, _, rfl⟩
                linarith [(chunkProg_bounds i).1]
              · simp only [List.mem_cons, List.not_mem_nil, or_false] at hy
                rcases hy with rfl | rfl <;> norm_num
        · rw [List.chain'_append]
          refine ⟨hSchain, htailchain, ?_⟩
          intro x hx y hy
          have hx' := (hSbounds x (mem_of_getLast? hx)).2
          have hy' : 85 = y := by simpa using hy
          rw [← hy']
          linarith
      · intro ev hev
        simp only [List.mem_cons, List.mem_append, List.not_mem_nil, or_false] at hev
        rcases hev with rfl | rfl | rfl | rfl | rfl | rfl | rfl | hev
        · intro h; exact absurd (Option.some.inj h) (by norm_num)
        · intro h; exact absurd (Option.some.inj h) (by norm_num)
        · intro h; exact absurd (Option.some.inj h) (by norm_num)
        · intro h; exact absurd (Option.some.inj h) (by norm_num)
        · intro h; exact absurd (Option.some.inj h) (by norm_num)
        · intro h; exact absurd (Option.some.inj h) (by norm_num)
        · intro h; exact absurd (Option.some.inj h) (by norm_num)
        rcases hev with hev | hev
        · exact hS100 ev hev
        rcases hev with rfl | rfl | hev
        · intro h; exact absurd (Option.some.inj h) (by norm_num)
        · intro h; exact absurd (Option.some.inj h) (by norm_num)
        rcases hev with hev | hev
        · exact hchunk100 ev hev
        rcases hev with rfl | rfl
        · intro h; exact absurd (Option.some.inj h) (by norm_num)
        · intro _; rfl
      · rw [List.filter_cons_of_neg (by simp [statusEv]),
          List.filter_cons_of_neg (by simp [statusEv]),
          List.filter_cons_of_neg (by simp),
          List.filter_cons_of_neg (by simp [progressEv]),
          List.filter_cons_of_neg (by simp [statusEv]),
          List.filter_cons_of_neg (by simp),
          List.filter_cons_of_neg (by simp [progressEv]),
          List.filter_append,
          List.filter_eq_nil.mpr (fun ev hev => by simp [hSnoComplete ev hev]),
          List.filter_cons_of_neg (by simp [statusEv]),
          List.filter_cons_of_neg (by simp),
          List.filter_append,
          List.filter_eq_nil.mpr (fun ev hev => by
            obtain ⟨i, rfl⟩ := chunkEvents_shape _ ev hev
            simp [reportChunkEv]),
          List.filter_cons_of_neg (by simp [progressEv]),
          List.filter_cons_of_pos (by simp)]
        simp

/-! ### Concrete collaborator behaviours -/

/-- All collaborators succeed, the analysis reports no gap, the writer
streams one chunk and finishes normally. -/
def bOk : Behavior :=
  { research := Except.ok "r"
  , analysis := Except.ok "all good"
  , additional := fun _ _ => Except.ok "more"
  , reanalyze := fun _ _ => Except.ok "all good"
  , writerEvents := [WriterEvt.data "part"]
  , writerExc := none }

/-- All collaborators succeed but every analysis keeps reporting a
knowledge gap, so the loop runs to its bound. -/
def bGap : Behavior :=
  { research := Except.ok "r"
  , analysis := Except.ok "knowledge gap"
  , additional := fun _ _ => Except.ok "more"
  , reanalyze := fun _ _ => Except.ok "knowledge gap"
  , writerEvents := []
  , writerExc := none }

/-- Research and analysis succeed with no gap; the writer stream yields one
data chunk and then raises. -/
def bW : Behavior :=
  { research := Except.ok "r"
  , analysis := Except.ok "all good"
  , additional := fun _ _ => Except.ok "more"
  , reanalyze := fun _ _ => Except.ok "all good"
  , writerEvents := [WriterEvt.data "part"]
  , writerExc := some "boom" }

/-- An analysis text containing the (all-lowercase, ASCII) phrase
`insufficient information` triggers the gap test: lowering the text leaves
the phrase intact. -/
theorem needs_of_insufficient (a : String)
    (hocc : "insufficient information".data <:+: a.data) :
    needs_additional_research a = true := by
  obtain ⟨s, t, h⟩ := hocc
  have hmap : "insufficient information".data.map pyLower
      = "insufficient information".data := by decide
  have hinf : "insufficient information".data <:+: pyLowerStr a := by
    refine ⟨s.map pyLower, t.map pyLower, ?_⟩
    rw [← hmap]
    simp only [pyLowerStr, ← List.map_append]
    rw [h]
  unfold needs_additional_research
  refine List.any_eq_true.mpr ⟨"insufficient information", ?_, ?_⟩
  · simp [ADDITIONAL_RESEARCH_PHRASES]
  · exact decide_eq_true hinf

/-- A report chunk event does not satisfy the round-start filter. -/
theorem reportChunkEv_not_started (i : Nat) :
    ((reportChunkEv i).type == "status" && (reportChunkEv i).stage == "research"
      && !((reportChunkEv i).step == "initial_research")) = false := rfl

/-- The type field of a report chunk event. -/
theorem reportChunkEv_type (i : Nat) : (reportChunkEv i).type = "report_chunk" := rfl

/-- If the writer stream yields only data events and then raises, the chunk
list is non-empty (it ends with the apology chunk). -/
theorem report_chunks_all_data_ne_nil (e : String) : ∀ (evts : List WriterEvt),
    (∀ evt ∈ evts, ∃ s, evt = WriterEvt.data s) →
    report_stream_chunks evts (some e) ≠ []
  | [], _ => by simp [report_stream_chunks]
  | WriterEvt.data s :: rest, _ => by simp [report_stream_chunks]
  | WriterEvt.complete :: rest, h => by
    obtain ⟨s, hs⟩ := h WriterEvt.complete (List.mem_cons_self _ _)
    exact absurd hs (by simp)
  | WriterEvt.err m :: rest, h => by
    obtain ⟨s, hs⟩ := h (WriterEvt.err m) (List.mem_cons_self _ _)
    exact absurd hs (by simp)

/-- If the writer stream yields only data events and then raises, the last
chunk produced by `generate_final_report_stream` is the apology chunk. -/
theorem report_chunks_all_data_last (e : String) : ∀ (evts : List WriterEvt),
    (∀ evt ∈ evts, ∃ s, evt = WriterEvt.data s) →
    (report_stream_chunks evts (some e)).getLast? = some (apologyChunk e)
  | [], _ => rfl
  | WriterEvt.data s :: rest, h => by
    have hrest : ∀ evt ∈ rest, ∃ s, evt = WriterEvt.data s :=
      fun evt hm => h evt (List.mem_cons_of_mem _ hm)
    have hne := report_chunks_all_data_ne_nil e rest hrest
    have ih := report_chunks_all_data_last e rest hrest
    show (s :: report_stream_chunks rest (some e)).getLast?
        = some (apologyChunk e)
    rw [show s :: report_stream_chunks rest (some e)
          = [s] ++ report_stream_chunks rest (some e) from rfl,
        List.getLast?_append_of_ne_nil _ hne]
    exact ih
  | WriterEvt.complete :: rest, h => by
    obtain ⟨s, hs⟩ := h WriterEvt.complete (List.mem_cons_self _ _)
    exact absurd hs (by simp)
  | WriterEvt.err m :: rest, h => by
    obtain ⟨s, hs⟩ := h (WriterEvt.err m) (List.mem_cons_self _ _)
    exact absurd hs (by simp)

/-- Witness for the amended C1 at the configuration default
`max_research_loops = 2`. -/
theorem C1_progress_monotone_amended_witness :
    ((2 : Int) ≤ 3)
    ∧ (List.Chain' (· ≤ ·) (progressSeq (research_stream bOk 2))
      ∧ (∀ ev ∈ research_stream bOk 2, ev.progress = some 100 →
          ev.type = "complete")
      ∧ ((research_stream bOk 2).filter
          (fun ev => decide (ev.type = "complete"))).length ≤ 1) :=
  ⟨by decide, C1_progress_monotone_amended bOk 2 (by decide)⟩

/-- C1 as stated is false: with `max_research_loops = 5` and an analysis
that keeps reporting a knowledge gap, round 4 of the loop emits a `status`
event whose progress is `60 + 4·10 = 100` (and the following round-done
value 105 then drops back to 85), so progress 100 is not confined to the
`complete` event. -/
theorem C1_progress_monotone_counterexample :
    ¬ (∀ (b : Behavior) (max : Int),
        List.Chain' (· ≤ ·) (progressSeq (research_stream b max))
        ∧ (∀ ev ∈ research_stream b max,
            ev.progress = some 100 → ev.type = "complete")) := by
  intro hclaim
  have hneed : needs_additional_research "knowledge gap" = true := by decide
  have key : ∀ f : String, refineLoop bGap 5 1 "knowledge gap" f
      = ([refineStatusEv 1, refineDoneEv 1, refineStatusEv 2, refineDoneEv 2,
          refineStatusEv 3, refineDoneEv 3, refineStatusEv 4, refineDoneEv 4],
         some (5, "knowledge gap",
           f ++ additionalSep ++ "more" ++ additionalSep ++ "more"
             ++ additionalSep ++ "more" ++ additionalSep ++ "more")) := by
    intro f
    rw [refineLoop_step bGap 5 1 "knowledge gap" f "more" "knowledge gap"
        (by decide) hneed rfl rfl,
      refineLoop_step bGap 5 (1+1) "knowledge gap"
        (f ++ additionalSep ++ "more") "more" "knowledge gap"
        (by decide) hneed rfl rfl,
      refineLoop_step bGap 5 (1+1+1) "knowledge gap"
        (f ++ additionalSep ++ "more" ++ additionalSep ++ "more")
        "more" "knowledge gap" (by decide) hneed rfl rfl,
      refineLoop_step bGap 5 (1+1+1+1) "knowledge gap"
        (f ++ additionalSep ++ "more" ++ additionalSep ++ "more"
          ++ additionalSep ++ "more") "more" "knowledge gap"
        (by decide) hneed rfl rfl,
      refineLoop_stop bGap 5 (1+1+1+1+1) "knowledge gap" _ (by decide)]
  have hres : bGap.research = Except.ok "r" := rfl
  have hana : bGap.analysis = Except.ok "knowledge gap" := rfl
  have hw : chunkEvents (report_stream_chunks bGap.writerEvents bGap.writerExc)
      = [] := rfl
  have hloop := key "r"
  have hstream : research_stream bGap 5
      = [statusEv 5 "initialization" "initialization",
         statusEv 15 "initial_research" "research",
         ⟨"research_progress", some 30, "research_complete", "research", none⟩,
         progressEv 35 "initial_research_complete" "research",
         statusEv 45 "analysis" "analysis",
         ⟨"analysis_progress", some 52, "analysis_complete", "analysis", none⟩,
         progressEv 55 "analysis_complete" "analysis",
         refineStatusEv 1, refineDoneEv 1, refineStatusEv 2, refineDoneEv 2,
         refineStatusEv 3, refineDoneEv 3, refineStatusEv 4, refineDoneEv 4,
         statusEv 85 "final_report" "report",
         ⟨"report_start", some 87, "report_streaming_start", "report", none⟩,
         progressEv 95 "final_report_complete" "report",
         ⟨"complete", some 100, "complete", "complete", some 5⟩] := by
    simp [research_stream, hres, hana, hloop, hw]
  obtain ⟨-, h100⟩ := hclaim bGap 5
  have hmem : refineStatusEv 4 ∈ research_stream bGap 5 := by
    rw [hstream]; simp
  have htype := h100 (refineStatusEv 4) hmem
    (by simp only [refineStatusEv, statusEv, Option.some.injEq]; norm_num)
  exact absurd htype (by decide)

/-! ## Claim C5 -/

/-- C5, amended: the loop count reported on the `complete` event is at most
`max(max_research_loops, 1)` — the Python count starts at 1 and the loop
body only runs while `count < max_research_loops`, so for
`max_research_loops ≤ 0` the reported count is 1, exceeding the configured
bound.  When the analysis has no gap phrase, zero refinement rounds run and
the reported count is 1; in scenario C (analysis containing `insufficient
information`, bound 2, nominal collaborators) exactly one round runs and
the reported count is 2. -/
theorem C5_loop_count_amended (b : Behavior) (max : Int) :
    (∀ ev ∈ research_stream b max, ∀ n : Nat,
        ev.research_loops = some n → (n : Int) ≤ max ⊔ 1)
    ∧ (∀ f a, b.research = Except.ok f → b.analysis = Except.ok a →
        needs_additional_research a = false →
        startedRounds (research_stream b max) = 0
          ∧ (⟨"complete", some 100, "complete", "complete", some 1⟩ : Event)
              ∈ research_stream b max)
    ∧ (∀ f a s a', max = 2 → b.research = Except.ok f →
        b.analysis = Except.ok a →
        "insufficient information".data <:+: a.data →
        b.additional 1 a = Except.ok s →
        b.reanalyze 1 (f ++ additionalSep ++ s) = Except.ok a' →
        startedRounds (research_stream b max) = 1
          ∧ (⟨"complete", some 100, "complete", "complete", some 2⟩ : Event)
              ∈ research_stream b max) := by
  refine ⟨?_, ?_, ?_⟩
  · intro ev hev n hn
    rcases hres : b.research with e | rf
    · have hstream : research_stream b max
          = [statusEv 5 "initialization" "initialization",
             statusEv 15 "initial_research" "research",
             errorEv "research_error" "research"] := by
        simp [research_stream, hres]
      rw [hstream] at hev
      simp only [List.mem_cons, List.not_mem_nil, or_false] at hev
      rcases hev with rfl | rfl | rfl <;> exact Option.noConfusion hn
    rcases hana : b.analysis with e | ar
    · have hstream : research_stream b max
          = [statusEv 5 "initialization" "initialization",
             statusEv 15 "initial_research" "research",
             ⟨"research_progress", some 30, "research_complete", "research", none⟩,
             progressEv 35 "initial_research_complete" "research",
             statusEv 45 "analysis" "analysis",
             errorEv "analysis_error" "analysis"] := by
        simp [research_stream, hres, hana]
      rw [hstream] at hev
      simp only [List.mem_cons, List.not_mem_nil, or_false] at hev
      rcases hev with rfl | rfl | rfl | rfl | rfl | rfl <;>
        exact Option.noConfusion hn
    rcases hloop : (refineLoop b max 1 ar rf).2 with _ | ⟨c', a', f'⟩
    · have hstream : research_stream b max
          = statusEv 5 "initialization" "initialization" ::
            statusEv 15 "initial_research" "research" ::
            ⟨"research_progress", some 30, "research_complete", "research", none⟩ ::
            progressEv 35 "initial_research_complete" "research" ::
            statusEv 45 "analysis" "analysis" ::
            ⟨"analysis_progress", some 52, "analysis_complete", "analysis", none⟩ ::
            progressEv 55 "analysis_complete" "analysis" ::
            ((refineLoop b max 1 ar rf).1 ++ [errorEv "error" "error"]) := by
        simp [research_stream, hres, hana, hloop]
      rw [hstream] at hev
      simp only [List.mem_cons, List.mem_append, List.not_mem_nil, or_false] at hev
      rcases hev with rfl | rfl | rfl | rfl | rfl | rfl | rfl | hev | rfl
      · exact Option.noConfusion hn
      · exact Option.noConfusion hn
      · exact Option.noConfusion hn
      · exact Option.noConfusion hn
      · exact Option.noConfusion hn
      · exact Option.noConfusion hn
      · exact Option.noConfusion hn
      · rw [(refineLoop_types b max 1 ar rf ev hev).2.2] at hn
        exact Option.noConfusion hn
      · exact Option.noConfusion hn
    · have hstream : research_stream b max
          = statusEv 5 "initialization" "initialization" ::
            statusEv 15 "initial_research" "research" ::
            ⟨"research_progress", some 30, "research_complete", "research", none⟩ ::
            progressEv 35 "initial_research_complete" "research" ::
            statusEv 45 "analysis" "analysis" ::
            ⟨"analysis_progress", some 52, "analysis_complete", "analysis", none⟩ ::
            progressEv 55 "analysis_complete" "analysis" ::
            ((refineLoop b max 1 ar rf).1 ++
              statusEv 85 "final_report" "report" ::
              ⟨"report_start", some 87, "report_streaming_start", "report", none⟩ ::
              (chunkEvents (report_stream_chunks b.writerEvents b.writerExc) ++
               [progressEv 95 "final_report_complete" "report",
                ⟨"complete", some 100, "complete", "complete", some c'⟩])) := by
        simp [research_stream, hres, hana, hloop]
      rw [hstream] at hev
      simp only [List.mem_cons, List.mem_append, List.not_mem_nil, or_false] at hev
      rcases hev with rfl | rfl | rfl | rfl | rfl | rfl | rfl | hev
      · exact Option.noConfusion hn
      · exact Option.noConfusion hn
      · exact Option.noConfusion hn
      · exact Option.noConfusion hn
      · exact Option.noConfusion hn
      · exact Option.noConfusion hn
      · exact Option.noConfusion hn
      rcases hev with hev | hev
      · rw [(refineLoop_types b max 1 ar rf ev hev).2.2] at hn
        exact Option.noConfusion hn
      rcases hev with rfl | rfl | hev
      · exact Option.noConfusion hn
      · exact Option.noConfusion hn
      rcases hev with hev | hev
      · obtain ⟨i, rfl⟩ := chunkEvents_shape _ ev hev
        exact Option.noConfusion hn
      rcases hev with rfl | rfl
      · exact Option.noConfusion hn
      · have hcn : c' = n := Option.some.inj hn
        obtain ⟨h1, h2⟩ := refineLoop_count b max 1 ar rf c' a' f' hloop
        subst hcn
        rcases h2 with rfl | h2
        · simpa using (le_sup_right : (1 : Int) ≤ max ⊔ 1)
        · exact le_trans h2 le_sup_left
  · intro f a hres hana hneeds
    have hloop : refineLoop b max 1 a f = ([], some (1, a, f)) := by
      by_cases h : ((1 : Nat) : Int) < max
      · exact refineLoop_noNeed b max 1 a f h hneeds
      · exact refineLoop_stop b max 1 a f h
    have hstream : research_stream b max
        = statusEv 5 "initialization" "initialization" ::
          statusEv 15 "initial_research" "research" ::
          ⟨"research_progress", some 30, "research_complete", "research", none⟩ ::
          progressEv 35 "initial_research_complete" "research" ::
          statusEv 45 "analysis" "analysis" ::
          ⟨"analysis_progress", some 52, "analysis_complete", "analysis", none⟩ ::
          progressEv 55 "analysis_complete" "analysis" ::
          statusEv 85 "final_report" "report" ::
          ⟨"report_start", some 87, "report_streaming_start", "report", none⟩ ::
          (chunkEvents (report_stream_chunks b.writerEvents b.writerExc) ++
           [progressEv 95 "final_report_complete" "report",
            ⟨"complete", some 100, "complete", "complete", some 1⟩]) := by
      simp [research_stream, hres, hana, hloop]
    constructor
    · rw [hstream]
      unfold startedRounds
      rw [List.filter_cons_of_neg (by decide),
        List.filter_cons_of_neg (by decide),
        List.filter_cons_of_neg (by decide),
        List.filter_cons_of_neg (by decide),
        List.filter_cons_of_neg (by decide),
        List.filter_cons_of_neg (by decide),
        List.filter_cons_of_neg (by decide),
        List.filter_cons_of_neg (by decide),
        List.filter_cons_of_neg (by decide),
        List.filter_append,
        List.filter_eq_nil.mpr (fun ev hev => by
          obtain ⟨i, rfl⟩ := chunkEvents_shape _ ev hev
          simp [reportChunkEv_not_started]),
        List.filter_cons_of_neg (by decide),
        List.filter_cons_of_neg (by decide)]
      simp
    · rw [hstream]; simp
  · intro f a s a' hmax hres hana hocc hadd hre
    subst hmax
    have hneeds : needs_additional_research a = true := needs_of_insufficient a hocc
    have h2 : refineLoop b 2 (1+1) a' (f ++ additionalSep ++ s)
        = ([], some (1+1, a', f ++ additionalSep ++ s)) :=
      refineLoop_stop b 2 (1+1) a' (f ++ additionalSep ++ s) (by decide)
    have h1 := refineLoop_step b 2 1 a f s a' (by decide) hneeds hadd hre
    rw [h2] at h1
    have hstream : research_stream b 2
        = statusEv 5 "initialization" "initialization" ::
          statusEv 15 "initial_research" "research" ::
          ⟨"research_progress", some 30, "research_complete", "research", none⟩ ::
          progressEv 35 "initial_research_complete" "research" ::
          statusEv 45 "analysis" "analysis" ::
          ⟨"analysis_progress", some 52, "analysis_complete", "analysis", none⟩ ::
          progressEv 55 "analysis_complete" "analysis" ::
          refineStatusEv 1 :: refineDoneEv 1 ::
          statusEv 85 "final_report" "report" ::
          ⟨"report_start", some 87, "report_streaming_start", "report", none⟩ ::
          (chunkEvents (report_stream_chunks b.writerEvents b.writerExc) ++
           [progressEv 95 "final_report_complete" "report",
            ⟨"complete", some 100, "complete", "complete", some 2⟩]) := by
      simp [research_stream, hres, hana, h1]
    constructor
    · rw [hstream]
      unfold startedRounds
      rw [List.filter_cons_of_neg (by decide),
        List.filter_cons_of_neg (by decide),
        List.filter_cons_of_neg (by decide),
        List.filter_cons_of_neg (by decide),
        List.filter_cons_of_neg (by decide),
        List.filter_cons_of_neg (by decide),
        List.filter_cons_of_neg (by decide),
        List.filter_cons_of_pos (by decide),
        List.filter_cons_of_neg (by decide),
        List.filter_cons_of_neg (by decide),
        List.filter_cons_of_neg (by decide),
        List.filter_append,
        List.filter_eq_nil.mpr (fun ev hev => by
          obtain ⟨i, rfl⟩ := chunkEvents_shape _ ev hev
          simp [reportChunkEv_not_started]),
        List.filter_cons_of_neg (by decide),
        List.filter_cons_of_neg (by decide)]
      simp
    · rw [hstream]; simp

/-- C5 as stated is false: with `max_research_loops = 0` the Python loop
count starts at 1 and is reported unchanged on the `complete` event, so the
reported count 1 exceeds the configured bound 0. -/
theorem C5_loop_count_counterexample :
    ¬ (∀ (b : Behavior) (max : Int) (n : Nat),
        (∃ ev ∈ research_stream b max, ev.research_loops = some n) →
        (n : Int) ≤ max) := by
  intro h
  have hloop : refineLoop bOk 0 1 "all good" "r" = ([], some (1, "all good", "r")) :=
    refineLoop_stop bOk 0 1 "all good" "r" (by decide)
  have hres : bOk.research = Except.ok "r" := rfl
  have hana : bOk.analysis = Except.ok "all good" := rfl
  have hw : chunkEvents (report_stream_chunks bOk.writerEvents bOk.writerExc)
      = [reportChunkEv 1] := rfl
  have hstream : research_stream bOk 0
      = [statusEv 5 "initialization" "initialization",
         statusEv 15 "initial_research" "research",
         ⟨"research_progress", some 30, "research_complete", "research", none⟩,
         progressEv 35 "initial_research_complete" "research",
         statusEv 45 "analysis" "analysis",
         ⟨"analysis_progress", some 52, "analysis_complete", "analysis", none⟩,
         progressEv 55 "analysis_complete" "analysis",
         statusEv 85 "final_report" "report",
         ⟨"report_start", some 87, "report_streaming_start", "report", none⟩,
         reportChunkEv 1,
         progressEv 95 "final_report_complete" "report",
         ⟨"complete", some 100, "complete", "complete", some 1⟩] := by
    simp [research_stream, hres, hana, hloop, hw]
  have hcount := h bOk 0 1
    ⟨⟨"complete", some 100, "complete", "complete", some 1⟩,
      by rw [hstream]; simp, rfl⟩
  norm_num at hcount

/-! ## Claim C6 -/

/-- C6, amended: when the writer stream raises after yielding only data
events, `generate_final_report_stream` catches the exception and converts
it into a final apology chunk — the chunk list ends with
`apologyChunk e` — and the session (with the earlier stages nominal) still
ends with a `complete` event and emits no `error` event at all. -/
theorem C6_writer_error_amended (b : Behavior) (max : Int) (e f a : String)
    (hexc : b.writerExc = some e)
    (hdata : ∀ evt ∈ b.writerEvents, ∃ s, evt = WriterEvt.data s)
    (hres : b.research = Except.ok f) (hana : b.analysis = Except.ok a)
    (hneeds : needs_additional_research a = false) :
    (report_stream_chunks b.writerEvents b.writerExc).getLast?
        = some (apologyChunk e)
    ∧ (∃ ev ∈ research_stream b max, ev.type = "complete")
    ∧ (∀ ev ∈ research_stream b max, ¬ ev.type = "error") := by
  have hloop : refineLoop b max 1 a f = ([], some (1, a, f)) := by
    by_cases h : ((1 : Nat) : Int) < max
    · exact refineLoop_noNeed b max 1 a f h hneeds
    · exact refineLoop_stop b max 1 a f h
  have hstream : research_stream b max
      = statusEv 5 "initialization" "initialization" ::
        statusEv 15 "initial_research" "research" ::
        ⟨"research_progress", some 30, "research_complete", "research", none⟩ ::
        progressEv 35 "initial_research_complete" "research" ::
        statusEv 45 "analysis" "analysis" ::
        ⟨"analysis_progress", some 52, "analysis_complete", "analysis", none⟩ ::
        progressEv 55 "analysis_complete" "analysis" ::
        statusEv 85 "final_report" "report" ::
        ⟨"report_start", some 87, "report_streaming_start", "report", none⟩ ::
        (chunkEvents (report_stream_chunks b.writerEvents b.writerExc) ++
         [progressEv 95 "final_report_complete" "report",
          ⟨"complete", some 100, "complete", "complete", some 1⟩]) := by
    simp [research_stream, hres, hana, hloop]
  refine ⟨?_, ?_, ?_⟩
  · rw [hexc]
    exact report_chunks_all_data_last e b.writerEvents hdata
  · exact ⟨⟨"complete", some 100, "complete", "complete", some 1⟩,
      by rw [hstream]; simp, rfl⟩
  · intro ev hev
    rw [hstream] at hev
    simp only [List.mem_cons, List.mem_append, List.not_mem_nil, or_false] at hev
    rcases hev with rfl | rfl | rfl | rfl | rfl | rfl | rfl | rfl | rfl | hev
    · decide
    · decide
    · decide
    · decide
    · decide
    · decide
    · decide
    · decide
    · decide
    rcases hev with hev | hev
    · obtain ⟨i, rfl⟩ := chunkEvents_shape _ ev hev
      rw [reportChunkEv_type]
      decide
    rcases hev with rfl | rfl
    · decide
    · decide

/-- Witness for the amended C6 with a writer that streams one chunk and
then raises `boom`. -/
theorem C6_writer_error_amended_witness :
    (bW.writerExc = some "boom")
    ∧ ((report_stream_chunks bW.writerEvents bW.writerExc).getLast?
          = some (apologyChunk "boom")
      ∧ (∃ ev ∈ research_stream bW 2, ev.type = "complete")
      ∧ (∀ ev ∈ research_stream bW 2, ¬ ev.type = "error")) :=
  ⟨rfl, C6_writer_error_amended bW 2 "boom" "r" "all good" rfl
    (by
      intro evt hm
      simp only [bW, List.mem_cons, List.not_mem_nil, or_false] at hm
      exact ⟨"part", hm⟩)
    rfl rfl (by decide)⟩

/-- C6 as stated is false: the writer exception is converted to an apology
chunk inside the report generator, so the session still yields a `complete`
event (the claim demands no `complete` event and an `error` event). -/
theorem C6_writer_error_counterexample :
    ¬ (∀ (b : Behavior) (max : Int) (e : String), b.writerExc = some e →
        (∃ ev ∈ research_stream b max, ev.type = "error")
        ∧ (∀ ev ∈ research_stream b max, ¬ ev.type = "complete")) := by
  intro h
  have hloop : refineLoop bW 2 1 "all good" "r" = ([], some (1, "all good", "r")) :=
    refineLoop_noNeed bW 2 1 "all good" "r" (by decide) (by decide)
  have hres : bW.research = Except.ok "r" := rfl
  have hana : bW.analysis = Except.ok "all good" := rfl
  have hw : chunkEvents (report_stream_chunks bW.writerEvents bW.writerExc)
      = [reportChunkEv 1, reportChunkEv 2] := rfl
  have hstream : research_stream bW 2
      = [statusEv 5 "initialization" "initialization",
         statusEv 15 "initial_research" "research",
         ⟨"research_progress", some 30, "research_complete", "research", none⟩,
         progressEv 35 "initial_research_complete" "research",
         statusEv 45 "analysis" "analysis",
         ⟨"analysis_progress", some 52, "analysis_complete", "analysis", none⟩,
         progressEv 55 "analysis_complete" "analysis",
         statusEv 85 "final_report" "report",
         ⟨"report_start", some 87, "report_streaming_start", "report", none⟩,
         reportChunkEv 1, reportChunkEv 2,
         progressEv 95 "final_report_complete" "report",
         ⟨"complete", some 100, "complete", "complete", some 1⟩] := by
    simp [research_stream, hres, hana, hloop, hw]
  obtain ⟨-, hnc⟩ := h bW 2 "boom" rfl
  exact hnc ⟨"complete", some 100, "complete", "complete", some 1⟩
    (by rw [hstream]; simp) rfl

/-! ## Claim C4 -/

/-- The analysis text used as concrete input: exactly the fifth vocabulary
phrase (the mojibake rendering of a Chinese gap phrase, containing the
uppercase character `Ÿ`). -/
def c4Input : String :=
  "çŸ¥è¯†ç©ºç™½"

/-- C4, counterexample: the claim says `needs_additional_research` returns
true iff some vocabulary phrase occurs in the analysis text under
case-insensitive matching.  For the input `c4Input` — verbatim the fifth
vocabulary phrase — the phrase does occur case-insensitively, yet the
function returns `false`: `lower` maps the phrase's `Ÿ` to `ÿ`, so the
un-lowered phrase can never be found inside the lowered text. -/
theorem C4_needs_research_iff_counterexample :
    ¬ (needs_additional_research c4Input = true ↔ gapPhraseOccursCI c4Input) := by
  decide

/-- C4, amended: `needs_additional_research` returns true iff some phrase of
the fixed vocabulary occurs VERBATIM in the lowercased analysis text — the
analysis text is lowercased but the phrases are not, so the two corrupted
phrases that contain an uppercase character cannot match any input. -/
theorem C4_needs_research_iff_amended (s : String) :
    needs_additional_research s = true
      ↔ ∃ p ∈ ADDITIONAL_RESEARCH_PHRASES, p.data <:+: pyLowerStr s := by
  simp [needs_additional_research]

/-! ## Claim C10 -/

/-- C10: for a `LanguageTools` constructed with any fixed language other than
`"auto"`, `detect_and_set_language` returns the configured language for every
query but never updates the internal state, so `get_current_language` still
returns the initial `"english"` after any sequence of queries. -/
theorem C10_fixed_language_state (detector : String → String) (lang : String)
    (h : lang ≠ "auto") (queries : List String) :
    (∀ q, (detect_and_set_language detector
        (processQueries detector (LanguageTools.init lang) queries) q).1 = lang)
    ∧ get_current_language
        (processQueries detector (LanguageTools.init lang) queries) = "english" := by
  rw [processQueries_fixed_lang detector lang h queries]
  constructor
  · intro q
    rw [detect_fixed_lang_id detector lang h q]
  · rfl

/-- C10, witness: language `"chinese"`, two queries processed. -/
theorem C10_fixed_language_state_witness :
    (∀ q, (detect_and_set_language (fun _ => "korean")
        (processQueries (fun _ => "korean") (LanguageTools.init "chinese")
          ["什么是量子计算", "hello"]) q).1 = "chinese")
    ∧ get_current_language
        (processQueries (fun _ => "korean") (LanguageTools.init "chinese")
          ["什么是量子计算", "hello"]) = "english" :=
  C10_fixed_language_state (fun _ => "korean") "chinese" (by decide) ["什么是量子计算", "hello"]
